import Mathlib

/-
Verification development for the toroidal Life-style cellular automaton kernel
(`world.rs`): validated construction of a grid, a sparse live-cell map keyed by
`row * 22283 + col * 19709`, and the one-generation `step` algorithm
(survivor pass over live cells plus birth pass over accumulated dead-cell
candidates).

The Rust `HashMap` is modelled as an association list (`List (key × value)`)
with `insertA` replacing the value at an existing key in place and appending
fresh keys at the end; `containsKey`/`lookupA` search by key.  This matches
`HashMap::insert`/`contains_key`/`get_mut`.  The iteration order of a Rust
`HashMap` is unspecified; the canonical model order is the insertion order, and
order-(in)dependence of `step` is treated explicitly via `stepOn`, which runs
the survivor pass over a caller-supplied enumeration of the live entries.
-/

namespace Dull

abbrev Grid := List (List Nat)

abbrev CellPosition := Nat × Nat

/-- `const ROW_PRIME: usize = 22283`. -/
def ROW_PRIME : Nat := 22283

/-- `const COL_PRIME: usize = 19709`. -/
def COL_PRIME : Nat := 19709

def MIN_ROWS_ERROR : String := "Grid row must have a minimum length of 2"

def MIN_COLS_ERROR : String := "Grid column must have a minimum length of 2"

def COLS_LEN_CONSISTENCY_ERROR : String := "All grid columns must be of the same length"

/-- `fn build_living_cell_key`. -/
def build_living_cell_key (row_index col_index : Nat) : Nat :=
  row_index * ROW_PRIME + col_index * COL_PRIME

abbrev LiveCellMap := List (Nat × CellPosition)

abbrev DeadCellMap := List (Nat × (Nat × CellPosition))

/-- Model of `HashMap::contains_key`. -/
def containsKey {α : Type} (m : List (Nat × α)) (k : Nat) : Bool :=
  m.any (fun e => e.1 == k)

/-- Model of `HashMap::get`. -/
def lookupA {α : Type} (m : List (Nat × α)) (k : Nat) : Option α :=
  match m with
  | [] => none
  | e :: rest => if e.1 = k then some e.2 else lookupA rest k

/-- Model of `HashMap::insert` (and of in-place update through `get_mut`):
replaces the value at an existing key, appends a fresh key. -/
def insertA {α : Type} (m : List (Nat × α)) (k : Nat) (v : α) : List (Nat × α) :=
  match m with
  | [] => [(k, v)]
  | e :: rest => if e.1 = k then (k, v) :: rest else e :: insertA rest k v

/-- Inner loop of `build_map_from_grid`: walk one row, inserting an entry for
every cell holding `1`; `ci` is the column index of the first cell of `row`. -/
def buildRow (ri : Nat) (row : List Nat) (ci : Nat) (m : LiveCellMap) : LiveCellMap :=
  match row with
  | [] => m
  | v :: rest =>
      buildRow ri rest (ci + 1)
        (if v = 1 then insertA m (build_living_cell_key ri ci) (ri, ci) else m)

/-- Outer loop of `build_map_from_grid`; `ri` is the row index of the first
row of `g`. -/
def buildRows (g : Grid) (ri : Nat) (m : LiveCellMap) : LiveCellMap :=
  match g with
  | [] => m
  | row :: rest => buildRows rest (ri + 1) (buildRow ri row 0 m)

/-- `fn build_map_from_grid`. -/
def build_map_from_grid (g : Grid) : LiveCellMap :=
  buildRows g 0 []

/-- `struct DullWorld`. -/
structure DullWorld where
  rows : Nat
  cols : Nat
  living_cells : LiveCellMap
deriving DecidableEq

/-- `DullWorld::get_living_cells`. -/
def get_living_cells (w : DullWorld) : List CellPosition :=
  w.living_cells.map (fun e => e.2)

/-- `DullWorld::dimensions`. -/
def dimensions (w : DullWorld) : Nat × Nat := (w.rows, w.cols)

/-- One row of `DullWorld::from_config`'s validation: the row has exactly
`cols` cells and every cell is 0 or 1. -/
def validRow (cols : Nat) (row : List Nat) : Bool :=
  row.length == cols && row.all (fun v => v == 0 || v == 1)

/-- `DullWorld::from_config`.  `grid[0]` in the source is evaluated only after
the `rows < 2` early return, hence `headD` is exact there. -/
def from_config (grid : Grid) : Except String DullWorld :=
  if grid.length < 2 then Except.error MIN_ROWS_ERROR
  else if (grid.headD []).length < 2 then Except.error MIN_COLS_ERROR
  else if grid.all (validRow (grid.headD []).length) then
    Except.ok ⟨grid.length, (grid.headD []).length, build_map_from_grid grid⟩
  else Except.error COLS_LEN_CONSISTENCY_ERROR

/-- The `neighbor_positions` array of `DullWorld::process_neighbors`, in
source order. -/
def neighborPositions (rows cols r c : Nat) : List CellPosition :=
  let rp := (r + 1) % rows
  let rm := (r + rows - 1) % rows
  let cp := (c + 1) % cols
  let cm := (c + cols - 1) % cols
  [(rm, cm), (rm, c), (rm, cp), (r, cm), (r, cp), (rp, cm), (rp, c), (rp, cp)]

/-- Dead-map update of `process_neighbors`: increment (or initialise at 1) the
candidate entry of the dead neighbor at position `p`. -/
def bump (d : DeadCellMap) (p : CellPosition) : DeadCellMap :=
  let k := build_living_cell_key p.1 p.2
  match lookupA d k with
  | some e => insertA d k (e.1 + 1, p)
  | none => insertA d k (1, p)

/-- Body of the fold inside `process_neighbors`, for one neighbor position. -/
def processOne (m : LiveCellMap) (acc : Nat × DeadCellMap) (p : CellPosition) :
    Nat × DeadCellMap :=
  if containsKey m (build_living_cell_key p.1 p.2) then (acc.1 + 1, acc.2)
  else (acc.1, bump acc.2 p)

/-- `DullWorld::process_neighbors`: returns the live-neighbor tally for the
center cell together with the updated dead-cell candidate map. -/
def process_neighbors (w : DullWorld) (row col : Nat) (d : DeadCellMap) :
    Nat × DeadCellMap :=
  (neighborPositions w.rows w.cols row col).foldl (processOne w.living_cells) (0, d)

/-- One iteration of the survivor loop of `step`. -/
def survivorStep (w : DullWorld) (acc : DeadCellMap × LiveCellMap)
    (e : Nat × CellPosition) : DeadCellMap × LiveCellMap :=
  let r := process_neighbors w e.2.1 e.2.2 acc.1
  (r.2, if r.1 == 2 || r.1 == 3 then insertA acc.2 e.1 e.2 else acc.2)

/-- The survivor loop of `step`, run over a given enumeration `l` of the live
entries: returns the dead-cell candidate accumulator and the survivor part of
the next generation. -/
def firstPass (w : DullWorld) (l : List (Nat × CellPosition)) :
    DeadCellMap × LiveCellMap :=
  l.foldl (survivorStep w) ([], [])

/-- One iteration of the birth loop of `step`. -/
def birthInsert (ng : LiveCellMap) (e : Nat × (Nat × CellPosition)) : LiveCellMap :=
  if e.2.1 == 3 then insertA ng e.1 e.2.2 else ng

/-- `DullWorld::step`, with the enumeration order of the live-cell map made
explicit as `l` (Rust's `HashMap` iteration order is unspecified). -/
def stepOn (w : DullWorld) (l : List (Nat × CellPosition)) : DullWorld :=
  let fp := firstPass w l
  ⟨w.rows, w.cols, fp.1.foldl birthInsert fp.2⟩

/-- `DullWorld::step` with the canonical (insertion-order) enumeration. -/
def step (w : DullWorld) : DullWorld :=
  stepOn w w.living_cells

/-- `DullWorld::is_live`. -/
def is_live (w : DullWorld) (row col : Nat) : Bool :=
  containsKey w.living_cells (build_living_cell_key row col)

/-- Modelled from the spec: the dense full-grid engine is not part of the
sources (the repository implements only the sparse engine); per the spec it
holds the complete grid and applies the four standard rules (death below 2,
survival at 2 or 3, death above 3, birth at exactly 3 on a dead cell) to every
cell, reading neighbor states over the same eight toroidal positions.  A cell
of the dense grid is read with out-of-range defaulting to 0 (dead). -/
def gridAt (g : Grid) (r c : Nat) : Nat :=
  (g.getD r []).getD c 0

/-- Modelled from the spec: next-generation liveness of cell `(r, c)` under
the dense full-grid scan over grid `g` with dimensions `rows × cols`. -/
def denseNextAlive (g : Grid) (rows cols r c : Nat) : Bool :=
  if gridAt g r c == 1 then
    (neighborPositions rows cols r c).countP (fun p => gridAt g p.1 p.2 == 1) == 2 ||
    (neighborPositions rows cols r c).countP (fun p => gridAt g p.1 p.2 == 1) == 3
  else
    (neighborPositions rows cols r c).countP (fun p => gridAt g p.1 p.2 == 1) == 3

/-- Spec-side live-neighbor count of `(r, c)`: how many of the eight toroidal
neighbor pairs hold a currently living cell (a position occurring twice, as
happens on 2-row or 2-column grids, is counted with its multiplicity). -/
def liveNeighborCount (w : DullWorld) (r c : Nat) : Nat :=
  (neighborPositions w.rows w.cols r c).countP (fun p => (get_living_cells w).contains p)

/-- Well-formedness of an entry of the live map relative to the grid shape:
the key is derived from the stored coordinates and the coordinates are in
range. -/
def entryWf (rows cols : Nat) (e : Nat × CellPosition) : Prop :=
  e.1 = build_living_cell_key e.2.1 e.2.2 ∧ e.2.1 < rows ∧ e.2.2 < cols

/-- Well-formedness of a world as produced by validated construction. -/
def Wf (w : DullWorld) : Prop :=
  2 ≤ w.rows ∧ 2 ≤ w.cols ∧ (∀ e ∈ w.living_cells, entryWf w.rows w.cols e) ∧
    (w.living_cells.map Prod.fst).Nodup

/-- Invariant of the dead-cell candidate accumulator relative to a world:
every entry is keyed by the key of its stored in-range position, that key is
not a key of the live map, and keys are pairwise distinct. -/
def DInv (w : DullWorld) (d : DeadCellMap) : Prop :=
  (∀ e ∈ d, e.1 = build_living_cell_key e.2.2.1 e.2.2.2 ∧ e.2.2.1 < w.rows ∧
    e.2.2.2 < w.cols ∧ containsKey w.living_cells e.1 = false) ∧
  (d.map Prod.fst).Nodup

/-- A row of zeros. -/
def zrow (n : Nat) : List Nat := List.replicate n 0

/-- A row of length `n` holding a single 1 at column `i` (for `i < n`). -/
def oneAt (n i : Nat) : List Nat :=
  List.replicate i 0 ++ 1 :: List.replicate (n - i - 1) 0

/-- A 19710 × 22284 grid with live cells at `(0, 22283)` and `(19709, 0)`,
two positions whose keys collide: both hash to `439175647`. -/
def gridA : Grid :=
  oneAt 22284 22283 :: (List.replicate 19708 (zrow 22284) ++ [oneAt 22284 0])

/-- The world produced by `from_config gridA`: the colliding insert for
`(19709, 0)` overwrites the entry of `(0, 22283)`. -/
def worldA : DullWorld :=
  ⟨19710, 22284, [(build_living_cell_key 19709 0, (19709, 0))]⟩

/-- A 19710 × 22284 grid with live cells `(0, 22282)`, `(1, 22283)` and
`(19709, 0)`; the dead cell `(0, 22283)` has three live neighbors but shares
its key with the live cell `(19709, 0)`. -/
def gridB : Grid :=
  oneAt 22284 22282 :: oneAt 22284 22283 ::
    (List.replicate 19707 (zrow 22284) ++ [oneAt 22284 0])

/-- The world produced by `from_config gridB`. -/
def worldB : DullWorld :=
  ⟨19710, 22284,
    [(build_living_cell_key 0 22282, (0, 22282)),
     (build_living_cell_key 1 22283, (1, 22283)),
     (build_living_cell_key 19709 0, (19709, 0))]⟩

/-- A 19710 × 22284 grid with live cells `(0, 22282)`, `(1, 22282)` and
`(19708, 0)`; the two dead cells `(0, 22283)` and `(19709, 0)` share one key
and accumulate a joint tally of 3. -/
def gridC : Grid :=
  oneAt 22284 22282 :: oneAt 22284 22282 ::
    (List.replicate 19706 (zrow 22284) ++ [oneAt 22284 0, zrow 22284])

/-- The world produced by `from_config gridC`. -/
def worldC : DullWorld :=
  ⟨19710, 22284,
    [(build_living_cell_key 0 22282, (0, 22282)),
     (build_living_cell_key 1 22282, (1, 22282)),
     (build_living_cell_key 19708 0, (19708, 0))]⟩

/-- An alternative enumeration order of `worldC`'s live cells, processing
`(19708, 0)` first. -/
def listC2 : List (Nat × CellPosition) :=
  [(build_living_cell_key 19708 0, (19708, 0)),
   (build_living_cell_key 0 22282, (0, 22282)),
   (build_living_cell_key 1 22282, (1, 22282))]

/-- The 3 × 5 blinker grid from the spec's Scenario 2, live cells
`(1,1), (1,2), (1,3)`. -/
def gridBlinker : Grid :=
  [[0, 0, 0, 0, 0], [0, 1, 1, 1, 0], [0, 0, 0, 0, 0]]

/-- The world produced by `from_config gridBlinker`. -/
def worldBlinker : DullWorld :=
  ⟨3, 5,
    [(build_living_cell_key 1 1, (1, 1)),
     (build_living_cell_key 1 2, (1, 2)),
     (build_living_cell_key 1 3, (1, 3))]⟩

/-- The survival test applied to a live cell at position `p`: the tally
returned by `process_neighbors` is 2 or 3.  (The tally component of
`process_neighbors` does not depend on the dead-map argument, so the empty
map is passed.) -/
def survives (w : DullWorld) (p : CellPosition) : Bool :=
  (process_neighbors w p.1 p.2 []).1 == 2 || (process_neighbors w p.1 p.2 []).1 == 3

/-- Total number of times position `p` occurs as a neighbor of the cells
enumerated by `l` (with multiplicity). -/
def totalInc (rows cols : Nat) (l : List (Nat × CellPosition)) (p : CellPosition) : Nat :=
  (l.map (fun e => (neighborPositions rows cols e.2.1 e.2.2).count p)).sum

/-- Current tally stored in the dead-cell candidate map under key `k`
(0 when no entry exists). -/
def tallyOf (d : DeadCellMap) (k : Nat) : Nat :=
  match lookupA d k with
  | some e => e.1
  | none => 0

/-- The eight neighbor offsets, encoded with components in {0, 1, 2} standing
for -1, 0, +1, in the order of the source's `neighbor_positions` array. -/
def offsets : List (Nat × Nat) :=
  [(0, 0), (0, 1), (0, 2), (1, 0), (1, 2), (2, 0), (2, 1), (2, 2)]

/-- Apply an encoded offset to a position on the torus. -/
def applyOff (rows cols : Nat) (p : CellPosition) (o : Nat × Nat) : CellPosition :=
  ((p.1 + rows - 1 + o.1) % rows, (p.2 + cols - 1 + o.2) % cols)

/-- The opposite of an encoded offset. -/
def invOff (o : Nat × Nat) : Nat × Nat := (2 - o.1, 2 - o.2)

/-! ### Arithmetic of the key and of toroidal coordinates -/

/-- On grids with fewer than 19710 rows the key map is injective on in-range
coordinates: a collision forces the row difference to be a positive multiple
of 19709. -/
theorem key_inj {r1 c1 r2 c2 : Nat} (h1 : r1 < 19709) (h2 : r2 < 19709)
    (h : build_living_cell_key r1 c1 = build_living_cell_key r2 c2) :
    r1 = r2 ∧ c1 = c2 := by
  simp only [build_living_cell_key, ROW_PRIME, COL_PRIME] at h
  omega

/-- The two keys of the colliding pair `(0, 22283)` / `(19709, 0)` are equal. -/
theorem key_collision : build_living_cell_key 0 22283 = build_living_cell_key 19709 0 := by
  simp [build_living_cell_key, ROW_PRIME, COL_PRIME]

theorem mod_succ_iff {n a b : Nat} (hn : 0 < n) (ha : a < n) (hb : b < n) :
    (a + 1) % n = b ↔ (b + n - 1) % n = a := by
  constructor
  · intro h
    have hb1 : b + n - 1 = b + (n - 1) := by omega
    rw [hb1, ← h, Nat.mod_add_mod]
    have : a + 1 + (n - 1) = a + n := by omega
    rw [this, Nat.add_mod_right, Nat.mod_eq_of_lt ha]
  · intro h
    rw [← h, Nat.mod_add_mod]
    have : b + n - 1 + 1 = b + n := by omega
    rw [this, Nat.add_mod_right, Nat.mod_eq_of_lt hb]

theorem offCoord_symm {n a b i : Nat} (hi : i ≤ 2) (ha : a < n) (hb : b < n) :
    ((a + n - 1 + i) % n = b ↔ (b + n - 1 + (2 - i)) % n = a) := by
  have hn : 0 < n := Nat.lt_of_le_of_lt (Nat.zero_le a) ha
  match i, hi with
  | 0, _ =>
      have h2 : b + n - 1 + 2 = (b + 1) + n := by omega
      have h0 : a + n - 1 + 0 = a + n - 1 := by omega
      rw [h2, h0, Nat.add_mod_right]
      exact (mod_succ_iff hn hb ha).symm
  | 1, _ =>
      have h1 : a + n - 1 + 1 = a + n := by omega
      have h1b : b + n - 1 + 1 = b + n := by omega
      rw [h1, h1b, Nat.add_mod_right, Nat.add_mod_right,
        Nat.mod_eq_of_lt ha, Nat.mod_eq_of_lt hb]
      exact ⟨fun h => h.symm, fun h => h.symm⟩
  | 2, _ =>
      have h2 : a + n - 1 + 2 = (a + 1) + n := by omega
      have h0 : b + n - 1 + 0 = b + n - 1 := by omega
      rw [h2, h0, Nat.add_mod_right]
      exact mod_succ_iff hn ha hb

/-! ### Association-list (`HashMap` model) lemmas -/

theorem lookupA_insertA {α : Type} (m : List (Nat × α)) (k : Nat) (v : α) (k2 : Nat) :
    lookupA (insertA m k v) k2 = if k2 = k then some v else lookupA m k2 := by
  induction m with
  | nil =>
      by_cases h : k2 = k
      · subst h
        simp [insertA, lookupA]
      · have h2 : ¬ (k = k2) := fun hh => h hh.symm
        simp [insertA, lookupA, h, h2]
  | cons e rest ih =>
      by_cases hek : e.1 = k
      · subst hek
        by_cases h : k2 = e.1
        · subst h
          simp [insertA, lookupA]
        · have h2 : ¬ (e.1 = k2) := fun hh => h hh.symm
          simp [insertA, lookupA, h, h2]
      · by_cases h : e.1 = k2
        · subst h
          simp [insertA, lookupA, hek, fun hh : e.1 = k => hek hh]
        · simp [insertA, lookupA, hek, h, ih]

theorem mem_insertA_elim {α : Type} {m : List (Nat × α)} {k : Nat} {v : α}
    {e : Nat × α} (he : e ∈ insertA m k v) : e = (k, v) ∨ e ∈ m := by
  induction m with
  | nil => simpa [insertA] using he
  | cons e0 rest ih =>
      by_cases h : e0.1 = k
      · simp only [insertA, h, if_pos rfl] at he
        rcases List.mem_cons.mp he with h1 | h1
        · exact Or.inl h1
        · exact Or.inr (List.mem_cons_of_mem _ h1)
      · simp only [insertA, h, if_neg h] at he
        rcases List.mem_cons.mp he with h1 | h1
        · exact Or.inr (h1 ▸ List.mem_cons_self _ _)
        · rcases ih h1 with h2 | h2
          · exact Or.inl h2
          · exact Or.inr (List.mem_cons_of_mem _ h2)

theorem containsKey_iff_mem_keys {α : Type} (m : List (Nat × α)) (k : Nat) :
    containsKey m k = true ↔ k ∈ m.map Prod.fst := by
  simp only [containsKey, List.any_eq_true, beq_iff_eq, List.mem_map]

theorem insertA_fresh {α : Type} {m : List (Nat × α)} {k : Nat} (v : α)
    (h : k ∉ m.map Prod.fst) : insertA m k v = m ++ [(k, v)] := by
  induction m with
  | nil => simp [insertA]
  | cons e rest ih =>
      simp only [List.map_cons, List.mem_cons, not_or] at h
      simp [insertA, Ne.symm h.1, ih h.2]

theorem keys_insertA_mem {α : Type} {m : List (Nat × α)} {k : Nat} (v : α)
    (h : k ∈ m.map Prod.fst) : (insertA m k v).map Prod.fst = m.map Prod.fst := by
  induction m with
  | nil => simp at h
  | cons e rest ih =>
      by_cases hek : e.1 = k
      · simp [insertA, hek]
      · simp only [List.map_cons, List.mem_cons] at h
        rcases h with h | h
        · exact absurd h.symm hek
        · simp [insertA, hek, ih h]

theorem nodup_keys_insertA {α : Type} {m : List (Nat × α)} {k : Nat} (v : α)
    (h : (m.map Prod.fst).Nodup) : ((insertA m k v).map Prod.fst).Nodup := by
  by_cases hk : k ∈ m.map Prod.fst
  · rw [keys_insertA_mem v hk]; exact h
  · rw [insertA_fresh v hk]
    simp only [List.map_append, List.map_cons, List.map_nil]
    exact List.Nodup.append h (List.nodup_singleton k) (by
      intro a ha hb
      simp only [List.mem_singleton] at hb
      exact hk (hb ▸ ha))

theorem mem_of_lookupA_eq_some {α : Type} {m : List (Nat × α)} {k : Nat} {v : α}
    (h : lookupA m k = some v) : (k, v) ∈ m := by
  induction m with
  | nil => simp [lookupA] at h
  | cons e rest ih =>
      by_cases hek : e.1 = k
      · rcases e with ⟨a, b⟩
        simp only at hek
        subst hek
        simp only [lookupA, if_pos rfl] at h
        cases h
        exact List.mem_cons_self _ _
      · simp only [lookupA, if_neg hek] at h
        exact List.mem_cons_of_mem _ (ih h)

theorem lookupA_eq_some_of_mem {α : Type} {m : List (Nat × α)} {k : Nat} {v : α}
    (hn : (m.map Prod.fst).Nodup) (h : (k, v) ∈ m) : lookupA m k = some v := by
  induction m with
  | nil => simp at h
  | cons e rest ih =>
      simp only [List.map_cons, List.nodup_cons] at hn
      rcases List.mem_cons.mp h with h1 | h1
      · simp [lookupA, ← h1]
      · have hek : e.1 ≠ k := by
          intro hk
          exact hn.1 (hk ▸ List.mem_map.mpr ⟨(k, v), h1, rfl⟩)
        simp [lookupA, hek, ih hn.2 h1]

theorem lookupA_isSome_iff {α : Type} (m : List (Nat × α)) (k : Nat) :
    (lookupA m k).isSome = containsKey m k := by
  induction m with
  | nil => simp [lookupA, containsKey]
  | cons e rest ih =>
      simp only [containsKey, List.any_cons] at ih ⊢
      by_cases hek : e.1 = k
      · simp [lookupA, hek]
      · simp [lookupA, hek, ih]

theorem lookupA_eq_none_of_not_contains {α : Type} {m : List (Nat × α)} {k : Nat}
    (h : containsKey m k = false) : lookupA m k = none := by
  have := lookupA_isSome_iff m k
  rw [h] at this
  exact Option.not_isSome_iff_eq_none.mp (by simp [this])

/-! ### Facts about the concrete grids -/

theorem oneAt_length {n i : Nat} (h : i < n) : (oneAt n i).length = n := by
  simp [oneAt]
  omega

theorem validRow_oneAt {n i : Nat} (h : i < n) : validRow n (oneAt n i) = true := by
  simp [validRow, oneAt]
  omega

theorem validRow_zrow {n : Nat} : validRow n (zrow n) = true := by
  simp [validRow, zrow]

theorem from_config_eq_ok {g : Grid} (h2 : 2 ≤ g.length) (hc : 2 ≤ (g.headD []).length)
    (hall : g.all (validRow (g.headD []).length) = true) :
    from_config g = Except.ok ⟨g.length, (g.headD []).length, build_map_from_grid g⟩ := by
  unfold from_config
  rw [if_neg (by omega : ¬ g.length < 2), if_neg (by omega : ¬ (g.headD []).length < 2),
    if_pos hall]

theorem buildRow_replicate_zero {ri t ci : Nat} {m : LiveCellMap} :
    buildRow ri (List.replicate t 0) ci m = m := by
  induction t generalizing ci with
  | zero => rfl
  | succ t ih => simp [List.replicate_succ, buildRow, ih]

theorem buildRow_append {ri : Nat} {r1 r2 : List Nat} {ci : Nat} {m : LiveCellMap} :
    buildRow ri (r1 ++ r2) ci m = buildRow ri r2 (ci + r1.length) (buildRow ri r1 ci m) := by
  induction r1 generalizing ci m with
  | nil => simp [buildRow]
  | cons v rest ih =>
      simp only [List.cons_append, buildRow, List.length_cons, List.append_eq]
      rw [ih]
      congr 1
      omega

theorem buildRow_oneAt {ri n i ci : Nat} {m : LiveCellMap} (_h : i < n) :
    buildRow ri (oneAt n i) ci m =
      insertA m (build_living_cell_key ri (ci + i)) (ri, ci + i) := by
  simp only [oneAt, buildRow_append, List.length_replicate, buildRow_replicate_zero]
  simp [buildRow, buildRow_replicate_zero]

theorem buildRows_cons {row : List Nat} {rest : Grid} {ri : Nat} {m : LiveCellMap} :
    buildRows (row :: rest) ri m = buildRows rest (ri + 1) (buildRow ri row 0 m) := rfl

theorem buildRows_nil {ri : Nat} {m : LiveCellMap} : buildRows [] ri m = m := rfl

theorem buildRows_append {g1 g2 : Grid} {ri : Nat} {m : LiveCellMap} :
    buildRows (g1 ++ g2) ri m = buildRows g2 (ri + g1.length) (buildRows g1 ri m) := by
  induction g1 generalizing ri m with
  | nil => simp [buildRows]
  | cons row rest ih =>
      simp only [List.cons_append, buildRows, List.length_cons, List.append_eq]
      rw [ih]
      congr 1
      omega

theorem buildRows_replicate_zrow {t n ri : Nat} {m : LiveCellMap} :
    buildRows (List.replicate t (zrow n)) ri m = m := by
  induction t generalizing ri with
  | zero => rfl
  | succ t ih =>
      rw [List.replicate_succ, buildRows_cons,
        show buildRow ri (zrow n) 0 m = m from buildRow_replicate_zero]
      exact ih

theorem build_map_gridA :
    build_map_from_grid gridA = [(build_living_cell_key 19709 0, (19709, 0))] := by
  have h1 : (22283 : Nat) < 22284 := by omega
  have h2 : (0 : Nat) < 22284 := by omega
  rw [show build_map_from_grid gridA = buildRows gridA 0 [] from rfl]
  simp only [gridA]
  rw [buildRows_cons, buildRow_oneAt h1, buildRows_append, buildRows_replicate_zrow,
    List.length_replicate, buildRows_cons, buildRow_oneAt h2, buildRows_nil]
  decide

theorem build_map_gridB :
    build_map_from_grid gridB = worldB.living_cells := by
  have h1 : (22282 : Nat) < 22284 := by omega
  have h2 : (22283 : Nat) < 22284 := by omega
  have h3 : (0 : Nat) < 22284 := by omega
  rw [show build_map_from_grid gridB = buildRows gridB 0 [] from rfl]
  simp only [gridB]
  rw [buildRows_cons, buildRow_oneAt h1, buildRows_cons, buildRow_oneAt h2,
    buildRows_append, buildRows_replicate_zrow, List.length_replicate,
    buildRows_cons, buildRow_oneAt h3, buildRows_nil]
  decide

theorem build_map_gridC :
    build_map_from_grid gridC = worldC.living_cells := by
  have h1 : (22282 : Nat) < 22284 := by omega
  have h3 : (0 : Nat) < 22284 := by omega
  rw [show build_map_from_grid gridC = buildRows gridC 0 [] from rfl]
  simp only [gridC]
  rw [buildRows_cons, buildRow_oneAt h1, buildRows_cons, buildRow_oneAt h1,
    buildRows_append, buildRows_replicate_zrow, List.length_replicate,
    buildRows_cons, buildRow_oneAt h3, buildRows_cons,
    show ∀ (r : Nat) (mm : LiveCellMap), buildRow r (zrow 22284) 0 mm = mm from
      fun r mm => buildRow_replicate_zero,
    buildRows_nil]
  decide

theorem gridA_length : gridA.length = 19710 := by
  simp only [gridA, List.length_cons, List.length_append, List.length_replicate,
    List.length_nil]

theorem gridB_length : gridB.length = 19710 := by
  simp only [gridB, List.length_cons, List.length_append, List.length_replicate,
    List.length_nil]

theorem gridC_length : gridC.length = 19710 := by
  simp only [gridC, List.length_cons, List.length_append, List.length_replicate,
    List.length_nil]

theorem gridA_head_length : (gridA.headD []).length = 22284 := by
  have : gridA.headD [] = oneAt 22284 22283 := rfl
  rw [this, oneAt_length (by omega)]

theorem gridB_head_length : (gridB.headD []).length = 22284 := by
  have : gridB.headD [] = oneAt 22284 22282 := rfl
  rw [this, oneAt_length (by omega)]

theorem gridC_head_length : (gridC.headD []).length = 22284 := by
  have : gridC.headD [] = oneAt 22284 22282 := rfl
  rw [this, oneAt_length (by omega)]

theorem gridA_all : gridA.all (validRow 22284) = true := by
  simp only [gridA, List.all_cons, List.all_append, List.all_replicate, List.all_nil,
    validRow_oneAt (show (22283 : Nat) < 22284 by omega),
    validRow_oneAt (show (0 : Nat) < 22284 by omega), validRow_zrow, ite_self]
  rfl

theorem gridB_all : gridB.all (validRow 22284) = true := by
  simp only [gridB, List.all_cons, List.all_append, List.all_replicate, List.all_nil,
    validRow_oneAt (show (22282 : Nat) < 22284 by omega),
    validRow_oneAt (show (22283 : Nat) < 22284 by omega),
    validRow_oneAt (show (0 : Nat) < 22284 by omega), validRow_zrow, ite_self]
  rfl

theorem gridC_all : gridC.all (validRow 22284) = true := by
  simp only [gridC, List.all_cons, List.all_append, List.all_replicate, List.all_nil,
    validRow_oneAt (show (22282 : Nat) < 22284 by omega),
    validRow_oneAt (show (0 : Nat) < 22284 by omega), validRow_zrow, ite_self]
  rfl

theorem from_config_gridA : from_config gridA = Except.ok worldA := by
  rw [from_config_eq_ok (by rw [gridA_length]; omega)
    (by rw [gridA_head_length]; omega) (by rw [gridA_head_length]; exact gridA_all)]
  rw [gridA_length, gridA_head_length, build_map_gridA]
  rfl

theorem from_config_gridB : from_config gridB = Except.ok worldB := by
  rw [from_config_eq_ok (by rw [gridB_length]; omega)
    (by rw [gridB_head_length]; omega) (by rw [gridB_head_length]; exact gridB_all)]
  rw [gridB_length, gridB_head_length, build_map_gridB]
  rfl

theorem from_config_gridC : from_config gridC = Except.ok worldC := by
  rw [from_config_eq_ok (by rw [gridC_length]; omega)
    (by rw [gridC_head_length]; omega) (by rw [gridC_head_length]; exact gridC_all)]
  rw [gridC_length, gridC_head_length, build_map_gridC]
  rfl

/-! ### Geometry of the eight toroidal neighbor positions -/

theorem nbr_in_range {rows cols r c : Nat} (hr : r < rows) (hc : c < cols) :
    ∀ q ∈ neighborPositions rows cols r c, q.1 < rows ∧ q.2 < cols := by
  have hr0 : 0 < rows := by omega
  have hc0 : 0 < cols := by omega
  intro q hq
  simp only [neighborPositions, List.mem_cons, List.not_mem_nil, or_false] at hq
  rcases hq with rfl | rfl | rfl | rfl | rfl | rfl | rfl | rfl <;>
    exact ⟨by first | exact Nat.mod_lt _ hr0 | exact hr,
      by first | exact Nat.mod_lt _ hc0 | exact hc⟩

theorem neighborPositions_eq_map {rows cols r c : Nat} (hr : r < rows) (hc : c < cols) :
    neighborPositions rows cols r c = offsets.map (applyOff rows cols (r, c)) := by
  have hr0 : 0 < rows := by omega
  have hc0 : 0 < cols := by omega
  have e1 : ∀ a n : Nat, 0 < n → a < n → (a + n - 1 + 1) % n = a := by
    intro a n hn ha
    have h : a + n - 1 + 1 = a + n := by omega
    rw [h, Nat.add_mod_right, Nat.mod_eq_of_lt ha]
  have e2 : ∀ a n : Nat, 0 < n → (a + n - 1 + 2) % n = (a + 1) % n := by
    intro a n hn
    have h : a + n - 1 + 2 = (a + 1) + n := by omega
    rw [h, Nat.add_mod_right]
  simp only [neighborPositions, offsets, applyOff, List.map_cons, List.map_nil,
    Nat.add_zero]
  rw [e1 r rows hr0 hr, e1 c cols hc0 hc, e2 r rows hr0, e2 c cols hc0]

theorem offsets_map_invOff : offsets.map invOff = offsets.reverse := by decide

theorem applyOff_symm {rows cols : Nat} {p q : CellPosition} {o : Nat × Nat}
    (ho : o ∈ offsets) (hp1 : p.1 < rows) (hp2 : p.2 < cols)
    (hq1 : q.1 < rows) (hq2 : q.2 < cols) :
    applyOff rows cols p o = q ↔ applyOff rows cols q (invOff o) = p := by
  have hb : o.1 ≤ 2 ∧ o.2 ≤ 2 := by
    have : ∀ x ∈ offsets, x.1 ≤ 2 ∧ x.2 ≤ 2 := by decide
    exact this o ho
  rw [applyOff, applyOff, invOff, Prod.ext_iff, Prod.ext_iff]
  exact and_congr (offCoord_symm hb.1 hp1 hq1) (offCoord_symm hb.2 hp2 hq2)

theorem count_nbr_symm {rows cols : Nat} {p q : CellPosition}
    (hp1 : p.1 < rows) (hp2 : p.2 < cols) (hq1 : q.1 < rows) (hq2 : q.2 < cols) :
    (neighborPositions rows cols p.1 p.2).count q
      = (neighborPositions rows cols q.1 q.2).count p := by
  have hp : (p.1, p.2) = p := rfl
  have hq : (q.1, q.2) = q := rfl
  rw [neighborPositions_eq_map hp1 hp2, neighborPositions_eq_map hq1 hq2, hp, hq,
    List.count_eq_countP, List.count_eq_countP, List.countP_map, List.countP_map]
  conv_rhs => rw [show offsets = (offsets.map invOff).reverse by
    rw [offsets_map_invOff, List.reverse_reverse]]
  rw [List.countP_reverse, List.countP_map]
  refine List.countP_congr ?_
  intro o ho
  simp only [Function.comp_apply, beq_iff_eq]
  exact (applyOff_symm ho hp1 hp2 hq1 hq2).symm.trans
    ⟨fun h => h, fun h => h⟩ |>.symm

/-! ### Counting live occurrences -/

theorem sum_map_zero {α : Type} (L : List α) : (L.map (fun _ => (0 : Nat))).sum = 0 := by
  induction L with
  | nil => rfl
  | cons x L ih => simp [ih]

theorem sum_map_add {α : Type} (L : List α) (f g : α → Nat) :
    (L.map (fun x => f x + g x)).sum = (L.map f).sum + (L.map g).sum := by
  induction L with
  | nil => rfl
  | cons x L ih =>
      simp only [List.map_cons, List.sum_cons, ih]
      omega

theorem beq_pos_comm (a x : CellPosition) : (a == x) = (x == a) := by
  by_cases h : a = x
  · subst h; rfl
  · simp [h, Ne.symm h]

theorem sum_map_indicator {a : CellPosition} {L : List CellPosition} (hL : L.Nodup) :
    (L.map (fun x => if x == a then (1 : Nat) else 0)).sum
      = if L.contains a then 1 else 0 := by
  induction L with
  | nil => rfl
  | cons y L ih =>
      simp only [List.nodup_cons] at hL
      by_cases hya : y = a
      · subst hya
        have hnot : ∀ x ∈ L, (if x == y then (1 : Nat) else 0) = 0 := by
          intro x hx
          have : x ≠ y := fun hxy => hL.1 (hxy ▸ hx)
          simp [this]
        rw [List.map_cons, List.sum_cons, List.map_congr_left hnot]
        simp [sum_map_zero]
      · have h2 : (y == a) = false := by simp [hya]
        simp only [List.map_cons, List.sum_cons, h2, List.contains_cons, ih hL.2]
        simp [Ne.symm hya]

theorem sum_count_eq_countP {N L : List CellPosition} (hL : L.Nodup) :
    (L.map (fun x => N.count x)).sum = N.countP (fun q => L.contains q) := by
  induction N with
  | nil =>
      simp only [List.count_nil, List.countP_nil, sum_map_zero]
  | cons a N ih =>
      have hcons : (L.map fun x => (a :: N).count x)
          = L.map (fun x => N.count x + if x == a then 1 else 0) := by
        refine List.map_congr_left ?_
        intro x hx
        rw [List.count_cons, beq_pos_comm]
      rw [hcons, sum_map_add, ih, sum_map_indicator hL, List.countP_cons]

/-! ### The fold inside `process_neighbors` -/

theorem foldl_processOne (m : LiveCellMap) (Q : List CellPosition) (n : Nat)
    (d : DeadCellMap) :
    Q.foldl (processOne m) (n, d)
      = (n + Q.countP (fun q => containsKey m (build_living_cell_key q.1 q.2)),
         (Q.filter (fun q => ! containsKey m (build_living_cell_key q.1 q.2))).foldl
           bump d) := by
  induction Q generalizing n d with
  | nil => simp
  | cons q Q ih =>
      by_cases h : containsKey m (build_living_cell_key q.1 q.2)
      · have hstep : processOne m (n, d) q = (n + 1, d) := by
          simp [processOne, h]
        rw [List.foldl_cons, hstep, ih]
        rw [List.countP_cons_of_pos _ _ (by exact h), List.filter_cons_of_neg (by simp [h])]
        congr 1
        omega
      · have hstep : processOne m (n, d) q = (n, bump d q) := by
          simp [processOne, h]
        rw [List.foldl_cons, hstep, ih]
        rw [List.countP_cons_of_neg _ _ (by exact h), List.filter_cons_of_pos (by simp [h]),
          List.foldl_cons]

theorem process_neighbors_eq (w : DullWorld) (r c : Nat) (d : DeadCellMap) :
    process_neighbors w r c d
      = ((neighborPositions w.rows w.cols r c).countP
          (fun q => containsKey w.living_cells (build_living_cell_key q.1 q.2)),
         ((neighborPositions w.rows w.cols r c).filter
          (fun q => ! containsKey w.living_cells (build_living_cell_key q.1 q.2))).foldl
           bump d) := by
  rw [process_neighbors, foldl_processOne]
  simp

theorem process_neighbors_fst (w : DullWorld) (r c : Nat) (d : DeadCellMap) :
    (process_neighbors w r c d).1 = (process_neighbors w r c []).1 := by
  rw [process_neighbors_eq, process_neighbors_eq]

/-! ### Lookup after bumping dead-cell candidates -/

theorem lookupA_bump (d : DeadCellMap) (p : CellPosition) (k : Nat) :
    lookupA (bump d p) k =
      if k = build_living_cell_key p.1 p.2
      then some (tallyOf d (build_living_cell_key p.1 p.2) + 1, p)
      else lookupA d k := by
  cases hl : lookupA d (build_living_cell_key p.1 p.2) with
  | none => simp [bump, hl, lookupA_insertA, tallyOf]
  | some e => simp [bump, hl, lookupA_insertA, tallyOf]

theorem tallyOf_bump_self (d : DeadCellMap) (p : CellPosition) :
    tallyOf (bump d p) (build_living_cell_key p.1 p.2)
      = tallyOf d (build_living_cell_key p.1 p.2) + 1 := by
  rw [tallyOf, lookupA_bump, if_pos rfl]

theorem lookupA_bump_ne (d : DeadCellMap) (p : CellPosition) (k : Nat)
    (h : k ≠ build_living_cell_key p.1 p.2) :
    lookupA (bump d p) k = lookupA d k := by
  rw [lookupA_bump, if_neg h]

theorem foldl_bump_lookup {p : CellPosition} :
    ∀ Q : List CellPosition,
    (∀ q ∈ Q, build_living_cell_key q.1 q.2 = build_living_cell_key p.1 p.2 → q = p) →
    ∀ d : DeadCellMap,
    lookupA (Q.foldl bump d) (build_living_cell_key p.1 p.2)
      = if Q.count p = 0 then lookupA d (build_living_cell_key p.1 p.2)
        else some (tallyOf d (build_living_cell_key p.1 p.2) + Q.count p, p) := by
  intro Q
  induction Q with
  | nil =>
      intro _ d
      simp
  | cons q Q ih =>
      intro hinj d
      have hinjQ : ∀ x ∈ Q, build_living_cell_key x.1 x.2
          = build_living_cell_key p.1 p.2 → x = p :=
        fun x hx => hinj x (List.mem_cons_of_mem _ hx)
      rw [List.foldl_cons, ih hinjQ]
      by_cases hqp : q = p
      · subst hqp
        have hcount : (q :: Q).count q = Q.count q + 1 := by
          rw [List.count_cons]
          simp
        by_cases hc : Q.count q = 0
        · rw [if_pos hc, hcount, hc, lookupA_bump, if_pos rfl,
            if_neg (by omega : ¬ (0 : Nat) + 1 = 0)]
        · rw [if_neg hc, hcount, tallyOf_bump_self,
            if_neg (by omega : ¬ Q.count q + 1 = 0)]
          congr 2
          omega
      · have hk : build_living_cell_key q.1 q.2 ≠ build_living_cell_key p.1 p.2 :=
          fun hh => hqp (hinj q (List.mem_cons_self _ _) hh)
        have hcount : (q :: Q).count p = Q.count p := by
          rw [List.count_cons]
          simp [hqp, fun hh : p = q => hqp hh.symm]
        have htally : tallyOf (bump d q) (build_living_cell_key p.1 p.2)
            = tallyOf d (build_living_cell_key p.1 p.2) := by
          rw [tallyOf, lookupA_bump_ne _ _ _ (fun hh => hk hh.symm), tallyOf]
        rw [hcount, lookupA_bump_ne _ _ _ (fun hh => hk hh.symm), htally]

/-! ### Invariants of the dead-cell accumulator -/

theorem DInv_bump {w : DullWorld} {d : DeadCellMap} {q : CellPosition}
    (hD : DInv w d) (hq1 : q.1 < w.rows) (hq2 : q.2 < w.cols)
    (hqc : containsKey w.living_cells (build_living_cell_key q.1 q.2) = false) :
    DInv w (bump d q) := by
  obtain ⟨he, hn⟩ := hD
  constructor
  · intro e hme
    cases hl : lookupA d (build_living_cell_key q.1 q.2) with
    | none =>
        simp only [bump, hl] at hme
        rcases mem_insertA_elim hme with h1 | h1
        · subst h1
          exact ⟨rfl, hq1, hq2, hqc⟩
        · exact he e h1
    | some v =>
        simp only [bump, hl] at hme
        rcases mem_insertA_elim hme with h1 | h1
        · subst h1
          exact ⟨rfl, hq1, hq2, hqc⟩
        · exact he e h1
  · cases hl : lookupA d (build_living_cell_key q.1 q.2) with
    | none =>
        simp only [bump, hl]
        exact nodup_keys_insertA _ hn
    | some v =>
        simp only [bump, hl]
        exact nodup_keys_insertA _ hn

theorem DInv_foldl_bump {w : DullWorld} :
    ∀ (Q : List CellPosition) (d : DeadCellMap),
    (∀ q ∈ Q, q.1 < w.rows ∧ q.2 < w.cols ∧
      containsKey w.living_cells (build_living_cell_key q.1 q.2) = false) →
    DInv w d → DInv w (Q.foldl bump d) := by
  intro Q
  induction Q with
  | nil => exact fun d _ hD => hD
  | cons q Q ih =>
      intro d hq hD
      rw [List.foldl_cons]
      refine ih _ (fun x hx => hq x (List.mem_cons_of_mem _ hx)) ?_
      obtain ⟨h1, h2, h3⟩ := hq q (List.mem_cons_self _ _)
      exact DInv_bump hD h1 h2 h3

theorem DInv_survivorStep {w : DullWorld} {acc : DeadCellMap × LiveCellMap}
    {e : Nat × CellPosition} (hD : DInv w acc.1)
    (he1 : e.2.1 < w.rows) (he2 : e.2.2 < w.cols) :
    DInv w (survivorStep w acc e).1 := by
  have h1 : (survivorStep w acc e).1 = (process_neighbors w e.2.1 e.2.2 acc.1).2 := rfl
  rw [h1, process_neighbors_eq]
  refine DInv_foldl_bump _ _ ?_ hD
  intro q hq
  have hmem := List.mem_filter.mp hq
  have hr := nbr_in_range he1 he2 q hmem.1
  refine ⟨hr.1, hr.2, ?_⟩
  simpa using hmem.2

theorem DInv_foldl_survivor {w : DullWorld} :
    ∀ (l : List (Nat × CellPosition)) (acc : DeadCellMap × LiveCellMap),
    (∀ e ∈ l, e.2.1 < w.rows ∧ e.2.2 < w.cols) →
    DInv w acc.1 → DInv w (l.foldl (survivorStep w) acc).1 := by
  intro l
  induction l with
  | nil => exact fun acc _ hD => hD
  | cons e l ih =>
      intro acc hl hD
      rw [List.foldl_cons]
      refine ih _ (fun x hx => hl x (List.mem_cons_of_mem _ hx)) ?_
      obtain ⟨h1, h2⟩ := hl e (List.mem_cons_self _ _)
      exact DInv_survivorStep hD h1 h2

theorem DInv_nil {w : DullWorld} : DInv w [] := by
  constructor
  · intro e he
    simp at he
  · simp

theorem DInv_firstPass {w : DullWorld} {l : List (Nat × CellPosition)}
    (hl : ∀ e ∈ l, e.2.1 < w.rows ∧ e.2.2 < w.cols) :
    DInv w (firstPass w l).1 :=
  DInv_foldl_survivor l ([], []) hl DInv_nil

/-! ### The accumulator after the survivor pass -/

theorem totalInc_nil {rows cols : Nat} {p : CellPosition} :
    totalInc rows cols [] p = 0 := rfl

theorem totalInc_cons {rows cols : Nat} {e : Nat × CellPosition}
    {l : List (Nat × CellPosition)} {p : CellPosition} :
    totalInc rows cols (e :: l) p
      = (neighborPositions rows cols e.2.1 e.2.2).count p + totalInc rows cols l p := by
  simp [totalInc]

theorem tallyOf_foldl_bump {Q : List CellPosition} {p : CellPosition}
    (hinj : ∀ q ∈ Q, build_living_cell_key q.1 q.2 = build_living_cell_key p.1 p.2
      → q = p) (d : DeadCellMap) :
    tallyOf (Q.foldl bump d) (build_living_cell_key p.1 p.2)
      = tallyOf d (build_living_cell_key p.1 p.2) + Q.count p := by
  rw [tallyOf, foldl_bump_lookup Q hinj d]
  by_cases hc : Q.count p = 0
  · rw [if_pos hc, hc, tallyOf]
    omega
  · rw [if_neg hc]

theorem foldl_survivor_dead_lookup {w : DullWorld} (hinj : w.rows ≤ 19709)
    {p : CellPosition} (hp1 : p.1 < w.rows) (_hp2 : p.2 < w.cols) :
    ∀ l : List (Nat × CellPosition), (∀ e ∈ l, e.2.1 < w.rows ∧ e.2.2 < w.cols) →
    ∀ (d0 : DeadCellMap) (ng0 : LiveCellMap),
    lookupA ((l.foldl (survivorStep w) (d0, ng0)).1) (build_living_cell_key p.1 p.2)
      = if containsKey w.living_cells (build_living_cell_key p.1 p.2) = true
           ∨ totalInc w.rows w.cols l p = 0
        then lookupA d0 (build_living_cell_key p.1 p.2)
        else some (tallyOf d0 (build_living_cell_key p.1 p.2)
          + totalInc w.rows w.cols l p, p) := by
  intro l
  induction l with
  | nil =>
      intro _ d0 ng0
      simp [totalInc_nil]
  | cons e l ih =>
      intro hl d0 ng0
      have he := hl e (List.mem_cons_self _ _)
      have hlQ : ∀ x ∈ l, x.2.1 < w.rows ∧ x.2.2 < w.cols :=
        fun x hx => hl x (List.mem_cons_of_mem _ hx)
      rw [List.foldl_cons,
        show l.foldl (survivorStep w) (survivorStep w (d0, ng0) e)
          = l.foldl (survivorStep w)
            ((survivorStep w (d0, ng0) e).1, (survivorStep w (d0, ng0) e).2) from rfl,
        ih hlQ]
      have hstep1 : (survivorStep w (d0, ng0) e).1
          = ((neighborPositions w.rows w.cols e.2.1 e.2.2).filter
              (fun q => ! containsKey w.living_cells
                (build_living_cell_key q.1 q.2))).foldl bump d0 := by
        have h0 : (survivorStep w (d0, ng0) e).1
            = (process_neighbors w e.2.1 e.2.2 d0).2 := rfl
        rw [h0, process_neighbors_eq]
      have hinjQ : ∀ q ∈ (neighborPositions w.rows w.cols e.2.1 e.2.2).filter
          (fun q => ! containsKey w.living_cells (build_living_cell_key q.1 q.2)),
          build_living_cell_key q.1 q.2 = build_living_cell_key p.1 p.2 → q = p := by
        intro q hq hkey
        have hqr := nbr_in_range he.1 he.2 q (List.mem_filter.mp hq).1
        have := key_inj (by omega) (by omega) hkey
        exact Prod.ext this.1 this.2
      by_cases hK : containsKey w.living_cells (build_living_cell_key p.1 p.2) = true
      · have hcQ : ((neighborPositions w.rows w.cols e.2.1 e.2.2).filter
            (fun q => ! containsKey w.living_cells
              (build_living_cell_key q.1 q.2))).count p = 0 := by
          rw [List.count_eq_zero]
          intro hmemQ
          have h2 := (List.mem_filter.mp hmemQ).2
          simp [hK] at h2
        rw [if_pos (Or.inl hK), if_pos (Or.inl hK), hstep1,
          foldl_bump_lookup _ hinjQ, if_pos hcQ]
      · have hpred : (fun q => ! containsKey w.living_cells
            (build_living_cell_key q.1 q.2)) p = true := by
          simp [hK]
        have hcQ : ((neighborPositions w.rows w.cols e.2.1 e.2.2).filter
            (fun q => ! containsKey w.living_cells
              (build_living_cell_key q.1 q.2))).count p
            = (neighborPositions w.rows w.cols e.2.1 e.2.2).count p :=
          List.count_filter hpred
        have hlk := foldl_bump_lookup _ hinjQ d0
        have htly := tallyOf_foldl_bump hinjQ d0
        rw [hcQ] at hlk htly
        rw [totalInc_cons]
        by_cases hc2 : totalInc w.rows w.cols l p = 0
        · rw [if_pos (Or.inr hc2)]
          by_cases hc1 : (neighborPositions w.rows w.cols e.2.1 e.2.2).count p = 0
          · rw [if_pos (by omega), hstep1, hlk, if_pos hc1]
          · rw [if_neg (by simp [hK]; omega), hstep1, hlk, if_neg hc1, hc2]
            congr 2
        · rw [if_neg (by simp [hK]; omega), if_neg (by simp [hK]; omega), hstep1, htly]
          congr 2
          omega

theorem firstPass_dead_lookup {w : DullWorld} (hinj : w.rows ≤ 19709)
    {p : CellPosition} (hp1 : p.1 < w.rows) (hp2 : p.2 < w.cols)
    {l : List (Nat × CellPosition)} (hl : ∀ e ∈ l, e.2.1 < w.rows ∧ e.2.2 < w.cols) :
    lookupA ((firstPass w l).1) (build_living_cell_key p.1 p.2)
      = if containsKey w.living_cells (build_living_cell_key p.1 p.2) = true
           ∨ totalInc w.rows w.cols l p = 0
        then none
        else some (totalInc w.rows w.cols l p, p) := by
  rw [firstPass, foldl_survivor_dead_lookup hinj hp1 hp2 l hl]
  by_cases h : containsKey w.living_cells (build_living_cell_key p.1 p.2) = true
      ∨ totalInc w.rows w.cols l p = 0
  · rw [if_pos h, if_pos h]
    rfl
  · rw [if_neg h, if_neg h]
    simp [tallyOf, lookupA]

theorem firstPass_dead_mem {w : DullWorld} (hinj : w.rows ≤ 19709)
    {l : List (Nat × CellPosition)} (hl : ∀ e ∈ l, e.2.1 < w.rows ∧ e.2.2 < w.cols)
    (kk n : Nat) (q : CellPosition) :
    (kk, (n, q)) ∈ (firstPass w l).1
      ↔ kk = build_living_cell_key q.1 q.2 ∧ q.1 < w.rows ∧ q.2 < w.cols ∧
        containsKey w.living_cells (build_living_cell_key q.1 q.2) = false ∧
        n = totalInc w.rows w.cols l q ∧ n ≠ 0 := by
  have hD := DInv_firstPass (w := w) hl
  constructor
  · intro hmem
    obtain ⟨hkey, hq1, hq2, hdead⟩ := hD.1 _ hmem
    simp only at hkey hq1 hq2 hdead
    rw [hkey] at hdead
    have hlook : lookupA ((firstPass w l).1) kk = some (n, q) :=
      lookupA_eq_some_of_mem hD.2 hmem
    rw [hkey, firstPass_dead_lookup hinj hq1 hq2 hl] at hlook
    by_cases hc : containsKey w.living_cells (build_living_cell_key q.1 q.2) = true
        ∨ totalInc w.rows w.cols l q = 0
    · rw [if_pos hc] at hlook
      exact absurd hlook (by simp)
    · rw [if_neg hc] at hlook
      push_neg at hc
      have h2 := Option.some.inj hlook
      have h3 : totalInc w.rows w.cols l q = n := congrArg Prod.fst h2
      refine ⟨hkey, hq1, hq2, hdead, h3.symm, ?_⟩
      omega
  · rintro ⟨hkey, hq1, hq2, hdead, hn, hn0⟩
    have hlook : lookupA ((firstPass w l).1) (build_living_cell_key q.1 q.2)
        = some (totalInc w.rows w.cols l q, q) := by
      rw [firstPass_dead_lookup hinj hq1 hq2 hl, if_neg (by simp [hdead]; omega)]
    subst hkey hn
    exact mem_of_lookupA_eq_some hlook

/-! ### The survivor part of the next generation -/

theorem survivorStep_snd {w : DullWorld} {acc : DeadCellMap × LiveCellMap}
    {e : Nat × CellPosition} :
    (survivorStep w acc e).2 = if survives w e.2 then insertA acc.2 e.1 e.2 else acc.2 := by
  rw [survivorStep, survives]
  rw [process_neighbors_fst w e.2.1 e.2.2 acc.1]

theorem foldl_survivor_ng {w : DullWorld} :
    ∀ (l : List (Nat × CellPosition)) (d0 : DeadCellMap) (ng0 : LiveCellMap),
    (∀ k ∈ l.map Prod.fst, k ∉ ng0.map Prod.fst) → (l.map Prod.fst).Nodup →
    (l.foldl (survivorStep w) (d0, ng0)).2
      = ng0 ++ l.filter (fun e => survives w e.2) := by
  intro l
  induction l with
  | nil =>
      intro d0 ng0 _ _
      simp
  | cons e l ih =>
      intro d0 ng0 hdis hnd
      simp only [List.map_cons, List.nodup_cons] at hnd
      rw [List.foldl_cons,
        show survivorStep w (d0, ng0) e
          = ((survivorStep w (d0, ng0) e).1, (survivorStep w (d0, ng0) e).2) from rfl,
        survivorStep_snd]
      by_cases hs : survives w e.2
      · rw [if_pos hs]
        have hfresh : e.1 ∉ ng0.map Prod.fst :=
          hdis e.1 (by simp)
        rw [insertA_fresh e.2 hfresh,
          ih _ _ ?_ hnd.2, List.filter_cons_of_pos (by exact hs)]
        · simp
        · intro k hk
          simp only [List.map_append, List.mem_append, List.map_cons, List.map_nil]
          rintro (h1 | h1)
          · exact hdis k (by simp [hk]) h1
          · simp only [List.mem_singleton] at h1
            subst h1
            exact hnd.1 (by simpa using hk)
      · rw [if_neg hs, ih _ _ (fun k hk => hdis k (by simp [hk])) hnd.2,
          List.filter_cons_of_neg (by exact hs)]

theorem firstPass_ng {w : DullWorld} {l : List (Nat × CellPosition)}
    (hnd : (l.map Prod.fst).Nodup) :
    (firstPass w l).2 = l.filter (fun e => survives w e.2) := by
  rw [firstPass, foldl_survivor_ng l [] [] (by simp) hnd]
  simp

/-! ### The birth pass -/

theorem foldl_birth {d : DeadCellMap} :
    ∀ ng : LiveCellMap, (d.map Prod.fst).Nodup →
    (∀ k ∈ d.map Prod.fst, k ∉ ng.map Prod.fst) →
    d.foldl birthInsert ng
      = ng ++ (d.filter (fun e => e.2.1 == 3)).map (fun e => (e.1, e.2.2)) := by
  induction d with
  | nil =>
      intro ng _ _
      simp
  | cons e d ih =>
      intro ng hnd hdis
      simp only [List.map_cons, List.nodup_cons] at hnd
      rw [List.foldl_cons, birthInsert]
      by_cases h3 : e.2.1 == 3
      · rw [if_pos h3]
        have hfresh : e.1 ∉ ng.map Prod.fst := hdis e.1 (by simp)
        rw [insertA_fresh e.2.2 hfresh, ih _ hnd.2 ?_, List.filter_cons_of_pos (by exact h3)]
        · simp
        · intro k hk
          simp only [List.map_append, List.mem_append, List.map_cons, List.map_nil]
          rintro (h1 | h1)
          · exact hdis k (by simp [hk]) h1
          · simp only [List.mem_singleton] at h1
            subst h1
            exact hnd.1 (by simpa using hk)
      · rw [if_neg h3, ih _ hnd.2 (fun k hk => hdis k (by simp [hk])),
          List.filter_cons_of_neg (by exact h3)]

/-! ### Keys versus positions in a well-formed world -/

theorem containsKey_key_iff {w : DullWorld} (hwf : Wf w) (hinj : w.rows ≤ 19709)
    {p : CellPosition} (hp1 : p.1 < w.rows) :
    containsKey w.living_cells (build_living_cell_key p.1 p.2) = true
      ↔ p ∈ get_living_cells w := by
  obtain ⟨hr2, hc2, hwfe, hnd⟩ := hwf
  constructor
  · intro h
    rw [containsKey_iff_mem_keys] at h
    obtain ⟨e, he, hke⟩ := List.mem_map.mp h
    have hewf := hwfe e he
    have hkeys : build_living_cell_key e.2.1 e.2.2 = build_living_cell_key p.1 p.2 := by
      rw [← hewf.1, hke]
    have hb1 : e.2.1 < 19709 := by
      have := hewf.2.1
      omega
    have hb2 : p.1 < 19709 := by omega
    have hpe := key_inj hb1 hb2 hkeys
    rw [get_living_cells]
    exact List.mem_map.mpr ⟨e, he, Prod.ext hpe.1 hpe.2⟩
  · intro h
    obtain ⟨e, he, hpe⟩ := List.mem_map.mp h
    rw [containsKey_iff_mem_keys]
    refine List.mem_map.mpr ⟨e, he, ?_⟩
    rw [(hwfe e he).1, hpe]

theorem process_neighbors_count {w : DullWorld} (hwf : Wf w) (hinj : w.rows ≤ 19709)
    {r c : Nat} (hr : r < w.rows) (hc : c < w.cols) (d : DeadCellMap) :
    (process_neighbors w r c d).1 = liveNeighborCount w r c := by
  have h1 : (process_neighbors w r c d).1
      = (neighborPositions w.rows w.cols r c).countP
          (fun q => containsKey w.living_cells (build_living_cell_key q.1 q.2)) := by
    rw [process_neighbors_eq]
  rw [h1, liveNeighborCount]
  refine List.countP_congr ?_
  intro q hq
  have hqr := nbr_in_range hr hc q hq
  constructor
  · intro h
    exact List.elem_iff.mpr ((containsKey_key_iff hwf hinj hqr.1).mp h)
  · intro h
    exact (containsKey_key_iff hwf hinj hqr.1).mpr (List.elem_iff.mp h)

theorem survives_iff {w : DullWorld} (hwf : Wf w) (hinj : w.rows ≤ 19709)
    {p : CellPosition} (hp1 : p.1 < w.rows) (hp2 : p.2 < w.cols) :
    survives w p = true
      ↔ (liveNeighborCount w p.1 p.2 = 2 ∨ liveNeighborCount w p.1 p.2 = 3) := by
  rw [survives, process_neighbors_count hwf hinj hp1 hp2]
  simp

theorem live_positions_nodup {w : DullWorld} (hwf : Wf w) :
    (get_living_cells w).Nodup := by
  obtain ⟨_, _, hwfe, hnd⟩ := hwf
  rw [get_living_cells]
  refine List.Nodup.map_on ?_ (List.Nodup.of_map _ hnd)
  intro x hx y hy hxy
  have h1 := (hwfe x hx).1
  have h2 := (hwfe y hy).1
  refine Prod.ext ?_ hxy
  rw [h1, h2, hxy]

theorem totalInc_eq_lnc {w : DullWorld} (hwf : Wf w)
    {l : List (Nat × CellPosition)} (hperm : l.Perm w.living_cells)
    {p : CellPosition} (hp1 : p.1 < w.rows) (hp2 : p.2 < w.cols) :
    totalInc w.rows w.cols l p = liveNeighborCount w p.1 p.2 := by
  have hwfe := hwf.2.2.1
  rw [totalInc]
  have hpermmap :=
    hperm.map (fun e => (neighborPositions w.rows w.cols e.2.1 e.2.2).count p)
  rw [hpermmap.sum_eq]
  have hcong : (w.living_cells.map
        (fun e => (neighborPositions w.rows w.cols e.2.1 e.2.2).count p))
      = w.living_cells.map
        (fun e => (neighborPositions w.rows w.cols p.1 p.2).count e.2) := by
    refine List.map_congr_left ?_
    intro e he
    have hewf := hwfe e he
    exact count_nbr_symm hewf.2.1 hewf.2.2 hp1 hp2
  rw [hcong]
  have hmm : w.living_cells.map
        (fun e => (neighborPositions w.rows w.cols p.1 p.2).count e.2)
      = (get_living_cells w).map
        (fun x => (neighborPositions w.rows w.cols p.1 p.2).count x) := by
    rw [get_living_cells, List.map_map]
    rfl
  rw [hmm, sum_count_eq_countP (live_positions_nodup hwf), liveNeighborCount]

/-! ### Well-formedness of validated construction -/

theorem from_config_ok_inv {g : Grid} {w : DullWorld}
    (h : from_config g = Except.ok w) :
    w.rows = g.length ∧ w.cols = (g.headD []).length ∧
    w.living_cells = build_map_from_grid g ∧ 2 ≤ g.length ∧
    2 ≤ (g.headD []).length ∧ g.all (validRow (g.headD []).length) = true := by
  unfold from_config at h
  by_cases h1 : g.length < 2
  · rw [if_pos h1] at h
    exact absurd h (by simp)
  · rw [if_neg h1] at h
    by_cases h2 : (g.headD []).length < 2
    · rw [if_pos h2] at h
      exact absurd h (by simp)
    · rw [if_neg h2] at h
      by_cases h3 : g.all (validRow (g.headD []).length) = true
      · rw [if_pos h3] at h
        have hww := Except.ok.inj h
        subst hww
        exact ⟨rfl, rfl, rfl, by omega, by omega, h3⟩
      · rw [if_neg h3] at h
        exact absurd h (by simp)

theorem mem_buildRow_elim {ri : Nat} :
    ∀ (row : List Nat) (ci : Nat) (m : LiveCellMap) (e : Nat × CellPosition),
    e ∈ buildRow ri row ci m →
    e ∈ m ∨ ∃ j, j < row.length
      ∧ e = (build_living_cell_key ri (ci + j), (ri, ci + j)) := by
  intro row
  induction row with
  | nil =>
      intro ci m e he
      exact Or.inl he
  | cons v rest ih =>
      intro ci m e he
      rw [buildRow] at he
      rcases ih (ci + 1) _ e he with h1 | ⟨j, hj, hje⟩
      · by_cases hv : v = 1
        · rw [if_pos hv] at h1
          rcases mem_insertA_elim h1 with h2 | h2
          · right
            exact ⟨0, Nat.succ_pos _, h2⟩
          · exact Or.inl h2
        · rw [if_neg hv] at h1
          exact Or.inl h1
      · right
        refine ⟨j + 1, Nat.succ_lt_succ hj, ?_⟩
        have harith : ci + 1 + j = ci + (j + 1) := by omega
        rw [← harith]
        exact hje

theorem mem_buildRows_elim :
    ∀ (g : Grid) (ri : Nat) (m : LiveCellMap) (e : Nat × CellPosition),
    e ∈ buildRows g ri m →
    e ∈ m ∨ ∃ i j, i < g.length ∧ j < (g.getD i []).length ∧
      e = (build_living_cell_key (ri + i) j, (ri + i, j)) := by
  intro g
  induction g with
  | nil =>
      intro ri m e he
      exact Or.inl he
  | cons row rest ih =>
      intro ri m e he
      rw [buildRows_cons] at he
      rcases ih (ri + 1) _ e he with h1 | ⟨i, j, hi, hj, hje⟩
      · rcases mem_buildRow_elim row 0 m e h1 with h2 | ⟨j, hj, hje⟩
        · exact Or.inl h2
        · right
          refine ⟨0, j, Nat.succ_pos _, by simpa using hj, ?_⟩
          simpa [Nat.zero_add] using hje
      · right
        refine ⟨i + 1, j, Nat.succ_lt_succ hi, by simpa using hj, ?_⟩
        have harith : ri + 1 + i = ri + (i + 1) := by omega
        rw [← harith]
        exact hje

theorem buildRow_nodup_keys {ri : Nat} :
    ∀ (row : List Nat) (ci : Nat) (m : LiveCellMap),
    (m.map Prod.fst).Nodup → ((buildRow ri row ci m).map Prod.fst).Nodup := by
  intro row
  induction row with
  | nil => exact fun ci m h => h
  | cons v rest ih =>
      intro ci m h
      rw [buildRow]
      refine ih (ci + 1) _ ?_
      by_cases hv : v = 1
      · rw [if_pos hv]
        exact nodup_keys_insertA _ h
      · rw [if_neg hv]
        exact h

theorem buildRows_nodup_keys :
    ∀ (g : Grid) (ri : Nat) (m : LiveCellMap),
    (m.map Prod.fst).Nodup → ((buildRows g ri m).map Prod.fst).Nodup := by
  intro g
  induction g with
  | nil => exact fun ri m h => h
  | cons row rest ih =>
      intro ri m h
      rw [buildRows_cons]
      exact ih (ri + 1) _ (buildRow_nodup_keys row 0 m h)

theorem build_map_nodup_keys (g : Grid) :
    ((build_map_from_grid g).map Prod.fst).Nodup := by
  rw [build_map_from_grid]
  exact buildRows_nodup_keys g 0 [] (by simp)

theorem getD_mem_of_lt {l : Grid} {i : Nat} (h : i < l.length) : l.getD i [] ∈ l := by
  rw [List.getD_eq_getElem?_getD]
  cases hl : l[i]? with
  | none =>
      rw [List.getElem?_eq_none_iff] at hl
      omega
  | some a =>
      have := List.getElem?_mem hl
      simpa using this

theorem from_config_wf {g : Grid} {w : DullWorld}
    (h : from_config g = Except.ok w) : Wf w := by
  obtain ⟨hr, hc, hm, h2, hcl, hall⟩ := from_config_ok_inv h
  refine ⟨by omega, by omega, ?_, ?_⟩
  · intro e he
    rw [hm, build_map_from_grid] at he
    rcases mem_buildRows_elim g 0 [] e he with h1 | ⟨i, j, hi, hj, hje⟩
    · simp at h1
    · have hrow : g.getD i [] ∈ g := getD_mem_of_lt hi
      have hvalid := List.all_eq_true.mp hall _ hrow
      rw [validRow, Bool.and_eq_true, beq_iff_eq] at hvalid
      subst hje
      refine ⟨rfl, ?_, ?_⟩
      · simpa [hr, Nat.zero_add] using hi
      · rw [hc]
        rw [hvalid.1] at hj
        exact hj
  · rw [hm]
    exact build_map_nodup_keys g

/-! ### Master characterization of one generation (injective-key regime) -/

theorem stepOn_mem {w : DullWorld} (hwf : Wf w) (hinj : w.rows ≤ 19709)
    {l : List (Nat × CellPosition)} (hperm : l.Perm w.living_cells)
    (p : CellPosition) :
    p ∈ get_living_cells (stepOn w l) ↔
      ((p ∈ get_living_cells w ∧
        (liveNeighborCount w p.1 p.2 = 2 ∨ liveNeighborCount w p.1 p.2 = 3)) ∨
       (p.1 < w.rows ∧ p.2 < w.cols ∧ p ∉ get_living_cells w ∧
        liveNeighborCount w p.1 p.2 = 3)) := by
  have hwfe := hwf.2.2.1
  have hndl : (l.map Prod.fst).Nodup := ((hperm.map Prod.fst).nodup_iff).mpr hwf.2.2.2
  have hlwf : ∀ e ∈ l, entryWf w.rows w.cols e :=
    fun e he => hwfe e (hperm.mem_iff.mp he)
  have hlb : ∀ e ∈ l, e.2.1 < w.rows ∧ e.2.2 < w.cols :=
    fun e he => ⟨(hlwf e he).2.1, (hlwf e he).2.2⟩
  have hng : (firstPass w l).2 = l.filter (fun e => survives w e.2) := firstPass_ng hndl
  have hD : DInv w (firstPass w l).1 := DInv_firstPass hlb
  have hdis : ∀ k ∈ ((firstPass w l).1).map Prod.fst,
      k ∉ ((firstPass w l).2).map Prod.fst := by
    intro k hk hk2
    obtain ⟨e, he, hke⟩ := List.mem_map.mp hk
    have hdead := (hD.1 e he).2.2.2
    obtain ⟨e2, he2, hke2⟩ := List.mem_map.mp hk2
    rw [hng] at he2
    have he2l : e2 ∈ l := List.mem_of_mem_filter he2
    have he2m : e2 ∈ w.living_cells := hperm.mem_iff.mp he2l
    have hck : containsKey w.living_cells k = true := by
      rw [containsKey_iff_mem_keys]
      exact List.mem_map.mpr ⟨e2, he2m, hke2⟩
    rw [hke, hck] at hdead
    exact absurd hdead (by simp)
  have hfinal : (stepOn w l).living_cells
      = (firstPass w l).2 ++
        (((firstPass w l).1).filter (fun e => e.2.1 == 3)).map
          (fun e => (e.1, e.2.2)) := by
    have h0 : (stepOn w l).living_cells
        = ((firstPass w l).1).foldl birthInsert ((firstPass w l).2) := rfl
    rw [h0, foldl_birth _ hD.2 hdis]
  rw [get_living_cells, hfinal, List.map_append, List.map_map, List.mem_append]
  constructor
  · rintro (hmem | hmem)
    · rw [hng] at hmem
      obtain ⟨e, he, hpe⟩ := List.mem_map.mp hmem
      have hef := List.mem_filter.mp he
      have hewf := hlwf e hef.1
      have hp1 : p.1 < w.rows := by
        rw [← hpe]
        exact hewf.2.1
      have hp2 : p.2 < w.cols := by
        rw [← hpe]
        exact hewf.2.2
      left
      constructor
      · rw [get_living_cells]
        exact List.mem_map.mpr ⟨e, hperm.mem_iff.mp hef.1, hpe⟩
      · have hs := hef.2
        rw [show e.2 = p from hpe] at hs
        exact (survives_iff hwf hinj hp1 hp2).mp hs
    · obtain ⟨e, he, hpe⟩ := List.mem_map.mp hmem
      obtain ⟨kk, n, q⟩ := e
      have hef := List.mem_filter.mp he
      have hchar := (firstPass_dead_mem hinj hlb kk n q).mp hef.1
      obtain ⟨hkey, hq1, hq2, hdead, hn, hn0⟩ := hchar
      have hn3 : n = 3 := by
        have := hef.2
        simpa using this
      have hqp : q = p := hpe
      subst hqp
      right
      refine ⟨hq1, hq2, ?_, ?_⟩
      · intro hmem2
        have := (containsKey_key_iff hwf hinj hq1).mpr hmem2
        rw [this] at hdead
        exact absurd hdead (by simp)
      · rw [← totalInc_eq_lnc hwf hperm hq1 hq2, ← hn, hn3]
  · rintro (⟨hlive, hcond⟩ | ⟨hp1, hp2, hdead, h3⟩)
    · left
      rw [hng]
      obtain ⟨e, he, hpe⟩ := List.mem_map.mp hlive
      have hel : e ∈ l := hperm.mem_iff.mpr he
      have hewf := hwfe e he
      have hp1 : p.1 < w.rows := by
        rw [← hpe]
        exact hewf.2.1
      have hp2 : p.2 < w.cols := by
        rw [← hpe]
        exact hewf.2.2
      refine List.mem_map.mpr ⟨e, List.mem_filter.mpr ⟨hel, ?_⟩, hpe⟩
      rw [show e.2 = p from hpe]
      exact (survives_iff hwf hinj hp1 hp2).mpr hcond
    · right
      have hcontains : containsKey w.living_cells
          (build_living_cell_key p.1 p.2) = false := by
        by_cases hcc : containsKey w.living_cells (build_living_cell_key p.1 p.2) = true
        · exact absurd ((containsKey_key_iff hwf hinj hp1).mp hcc) hdead
        · exact Bool.eq_false_iff.mpr hcc
      have htI : totalInc w.rows w.cols l p = 3 := by
        rw [totalInc_eq_lnc hwf hperm hp1 hp2]
        exact h3
      have hmemd : (build_living_cell_key p.1 p.2, (3, p)) ∈ (firstPass w l).1 := by
        rw [firstPass_dead_mem hinj hlb]
        exact ⟨rfl, hp1, hp2, hcontains, htI.symm, by omega⟩
      exact List.mem_map.mpr ⟨(build_living_cell_key p.1 p.2, (3, p)),
        List.mem_filter.mpr ⟨hmemd, by simp⟩, rfl⟩

/-! ### The live map of a freshly built grid (injective-key regime) -/

theorem mem_buildRow_inj {ri : Nat} (hri : ri < 19709) :
    ∀ (row : List Nat) (ci : Nat) (m : LiveCellMap),
    (∀ e0 ∈ m, ∃ i j, e0 = (build_living_cell_key i j, (i, j)) ∧ i < 19709 ∧
      (i < ri ∨ (i = ri ∧ j < ci))) →
    ∀ e, e ∈ buildRow ri row ci m ↔
      (e ∈ m ∨ ∃ j, j < row.length ∧ row.getD j 0 = 1 ∧
        e = (build_living_cell_key ri (ci + j), (ri, ci + j))) := by
  intro row
  induction row with
  | nil =>
      intro ci m hm e
      simp [buildRow]
  | cons v rest ih =>
      intro ci m hm e
      rw [buildRow]
      by_cases hv : v = 1
      · rw [if_pos hv]
        have hfresh : build_living_cell_key ri ci ∉ m.map Prod.fst := by
          intro hkm
          obtain ⟨e0, he0, hke0⟩ := List.mem_map.mp hkm
          obtain ⟨i, j, he0e, hib, hij⟩ := hm e0 he0
          rw [he0e] at hke0
          simp only at hke0
          have := key_inj hib hri hke0
          omega
        have hm2 : ∀ e0 ∈ insertA m (build_living_cell_key ri ci) (ri, ci),
            ∃ i j, e0 = (build_living_cell_key i j, (i, j)) ∧ i < 19709 ∧
              (i < ri ∨ (i = ri ∧ j < ci + 1)) := by
          intro e0 he0
          rcases mem_insertA_elim he0 with h1 | h1
          · exact ⟨ri, ci, h1, hri, Or.inr ⟨rfl, by omega⟩⟩
          · obtain ⟨i, j, a, b, c⟩ := hm e0 h1
            exact ⟨i, j, a, b, by omega⟩
        rw [ih (ci + 1) _ hm2 e, insertA_fresh _ hfresh, List.mem_append]
        constructor
        · rintro ((h1 | h1) | ⟨j, hj, hj1, hje⟩)
          · exact Or.inl h1
          · right
            exact ⟨0, Nat.succ_pos _, by simpa using hv, by simpa using h1⟩
          · right
            refine ⟨j + 1, Nat.succ_lt_succ hj, by simpa using hj1, ?_⟩
            have harith : ci + 1 + j = ci + (j + 1) := by omega
            rw [← harith]
            exact hje
        · rintro (h1 | ⟨j, hj, hj1, hje⟩)
          · exact Or.inl (Or.inl h1)
          · cases j with
            | zero =>
                left
                right
                simpa using hje
            | succ j =>
                right
                refine ⟨j, Nat.lt_of_succ_lt_succ hj, by simpa using hj1, ?_⟩
                have harith : ci + 1 + j = ci + (j + 1) := by omega
                rw [harith]
                exact hje
      · rw [if_neg hv]
        have hm2 : ∀ e0 ∈ m, ∃ i j, e0 = (build_living_cell_key i j, (i, j)) ∧
            i < 19709 ∧ (i < ri ∨ (i = ri ∧ j < ci + 1)) := by
          intro e0 he0
          obtain ⟨i, j, a, b, c⟩ := hm e0 he0
          exact ⟨i, j, a, b, by omega⟩
        rw [ih (ci + 1) m hm2 e]
        constructor
        · rintro (h1 | ⟨j, hj, hj1, hje⟩)
          · exact Or.inl h1
          · right
            refine ⟨j + 1, Nat.succ_lt_succ hj, by simpa using hj1, ?_⟩
            have harith : ci + 1 + j = ci + (j + 1) := by omega
            rw [← harith]
            exact hje
        · rintro (h1 | ⟨j, hj, hj1, hje⟩)
          · exact Or.inl h1
          · cases j with
            | zero =>
                exfalso
                exact hv (by simpa using hj1)
            | succ j =>
                right
                refine ⟨j, Nat.lt_of_succ_lt_succ hj, by simpa using hj1, ?_⟩
                have harith : ci + 1 + j = ci + (j + 1) := by omega
                rw [harith]
                exact hje

theorem mem_buildRows_inj :
    ∀ (g : Grid) (ri : Nat) (m : LiveCellMap), ri + g.length ≤ 19709 →
    (∀ e0 ∈ m, ∃ i j, e0 = (build_living_cell_key i j, (i, j)) ∧ i < 19709 ∧ i < ri) →
    ∀ e, e ∈ buildRows g ri m ↔
      (e ∈ m ∨ ∃ i j, i < g.length ∧ j < (g.getD i []).length ∧
        (g.getD i []).getD j 0 = 1 ∧
        e = (build_living_cell_key (ri + i) j, (ri + i, j))) := by
  intro g
  induction g with
  | nil =>
      intro ri m _ _ e
      simp [buildRows_nil]
  | cons row rest ih =>
      intro ri m hb hm e
      rw [buildRows_cons]
      have hri : ri < 19709 := by
        simp only [List.length_cons] at hb
        omega
      have hm0 : ∀ e0 ∈ m, ∃ i j, e0 = (build_living_cell_key i j, (i, j)) ∧
          i < 19709 ∧ (i < ri ∨ (i = ri ∧ j < 0)) := by
        intro e0 he0
        obtain ⟨i, j, a, b, c⟩ := hm e0 he0
        exact ⟨i, j, a, b, Or.inl c⟩
      have hrow := mem_buildRow_inj hri row 0 m hm0
      have hm1 : ∀ e0 ∈ buildRow ri row 0 m,
          ∃ i j, e0 = (build_living_cell_key i j, (i, j)) ∧ i < 19709 ∧ i < ri + 1 := by
        intro e0 he0
        rcases (hrow e0).mp he0 with h1 | ⟨j, hj, hj1, hje⟩
        · obtain ⟨i, j, a, b, c⟩ := hm e0 h1
          exact ⟨i, j, a, b, by omega⟩
        · exact ⟨ri, j, by simpa using hje, hri, by omega⟩
      rw [ih (ri + 1) _ (by simp only [List.length_cons] at hb; omega) hm1 e]
      constructor
      · rintro (h1 | ⟨i, j, hi, hj, hj1, hje⟩)
        · rcases (hrow e).mp h1 with h2 | ⟨j, hj, hj1, hje⟩
          · exact Or.inl h2
          · right
            exact ⟨0, j, Nat.succ_pos _, by simpa using hj, by simpa using hj1,
              by simpa using hje⟩
        · right
          refine ⟨i + 1, j, Nat.succ_lt_succ hi, by simpa using hj,
            by simpa using hj1, ?_⟩
          have harith : ri + 1 + i = ri + (i + 1) := by omega
          rw [← harith]
          exact hje
      · rintro (h1 | ⟨i, j, hi, hj, hj1, hje⟩)
        · exact Or.inl ((hrow e).mpr (Or.inl h1))
        · cases i with
          | zero =>
              exact Or.inl ((hrow e).mpr (Or.inr ⟨j, by simpa using hj,
                by simpa using hj1, by simpa using hje⟩))
          | succ i =>
              right
              refine ⟨i, j, Nat.lt_of_succ_lt_succ hi, by simpa using hj,
                by simpa using hj1, ?_⟩
              have harith : ri + 1 + i = ri + (i + 1) := by omega
              rw [harith]
              exact hje

theorem build_map_mem_iff {g : Grid} (hg : g.length ≤ 19709) (e : Nat × CellPosition) :
    e ∈ build_map_from_grid g ↔ ∃ i j, i < g.length ∧ j < (g.getD i []).length ∧
      (g.getD i []).getD j 0 = 1 ∧ e = (build_living_cell_key i j, (i, j)) := by
  rw [build_map_from_grid,
    mem_buildRows_inj g 0 [] (by omega) (by simp) e]
  simp [Nat.zero_add]

theorem live_iff_one {g : Grid} {w : DullWorld} (h : from_config g = Except.ok w)
    (hg : g.length ≤ 19709) (p : CellPosition) :
    p ∈ get_living_cells w ↔
      (p.1 < g.length ∧ p.2 < (g.getD p.1 []).length ∧ gridAt g p.1 p.2 = 1) := by
  obtain ⟨hr, hc, hm, h2, hcl, hall⟩ := from_config_ok_inv h
  rw [get_living_cells, hm]
  constructor
  · intro hmem
    obtain ⟨e, he, hpe⟩ := List.mem_map.mp hmem
    obtain ⟨i, j, hi, hj, h1, hje⟩ := (build_map_mem_iff hg e).mp he
    subst hje
    simp only at hpe
    rw [← hpe]
    exact ⟨hi, hj, h1⟩
  · rintro ⟨h1, h2b, h3⟩
    refine List.mem_map.mpr ⟨(build_living_cell_key p.1 p.2, p),
      (build_map_mem_iff hg _).mpr ⟨p.1, p.2, h1, h2b, h3, rfl⟩, rfl⟩

/-! ### One generation without any injectivity assumption -/

theorem step_decomp {w : DullWorld} (hwf : Wf w) :
    (step w).living_cells
      = (w.living_cells.filter (fun e => survives w e.2)) ++
        (((firstPass w w.living_cells).1).filter (fun e => e.2.1 == 3)).map
          (fun e => (e.1, e.2.2)) := by
  have hwfe := hwf.2.2.1
  have hlb : ∀ e ∈ w.living_cells, e.2.1 < w.rows ∧ e.2.2 < w.cols :=
    fun e he => ⟨(hwfe e he).2.1, (hwfe e he).2.2⟩
  have hng : (firstPass w w.living_cells).2
      = w.living_cells.filter (fun e => survives w e.2) := firstPass_ng hwf.2.2.2
  have hD : DInv w (firstPass w w.living_cells).1 := DInv_firstPass hlb
  have hdis : ∀ k ∈ ((firstPass w w.living_cells).1).map Prod.fst,
      k ∉ ((firstPass w w.living_cells).2).map Prod.fst := by
    intro k hk hk2
    obtain ⟨e, he, hke⟩ := List.mem_map.mp hk
    have hdead := (hD.1 e he).2.2.2
    obtain ⟨e2, he2, hke2⟩ := List.mem_map.mp hk2
    rw [hng] at he2
    have he2m : e2 ∈ w.living_cells := List.mem_of_mem_filter he2
    have hck : containsKey w.living_cells k = true := by
      rw [containsKey_iff_mem_keys]
      exact List.mem_map.mpr ⟨e2, he2m, hke2⟩
    rw [hke, hck] at hdead
    exact absurd hdead (by simp)
  have h0 : (step w).living_cells
      = ((firstPass w w.living_cells).1).foldl birthInsert
          ((firstPass w w.living_cells).2) := rfl
  rw [h0, foldl_birth _ hD.2 hdis, hng]

theorem step_mem_live {w : DullWorld} (hwf : Wf w) {p : CellPosition}
    (hlive : p ∈ get_living_cells w) :
    p ∈ get_living_cells (step w) ↔
      ((process_neighbors w p.1 p.2 []).1 = 2 ∨ (process_neighbors w p.1 p.2 []).1 = 3) := by
  have hwfe := hwf.2.2.1
  rw [get_living_cells, step_decomp hwf, List.map_append, List.map_map,
    List.mem_append]
  constructor
  · rintro (hmem | hmem)
    · obtain ⟨e, he, hpe⟩ := List.mem_map.mp hmem
      have hef := List.mem_filter.mp he
      have hs := hef.2
      rw [show e.2 = p from hpe, survives] at hs
      simpa using hs
    · exfalso
      obtain ⟨e, he, hpe⟩ := List.mem_map.mp hmem
      obtain ⟨kk, n, q⟩ := e
      have hef := List.mem_filter.mp he
      have hlb : ∀ e ∈ w.living_cells, e.2.1 < w.rows ∧ e.2.2 < w.cols :=
        fun e0 he0 => ⟨(hwfe e0 he0).2.1, (hwfe e0 he0).2.2⟩
      have hD : DInv w (firstPass w w.living_cells).1 := DInv_firstPass hlb
      obtain ⟨hkey, hq1, hq2, hdead⟩ := hD.1 _ hef.1
      simp only at hkey hdead
      have hqp : q = p := hpe
      subst hqp
      obtain ⟨e2, he2, hpe2⟩ := List.mem_map.mp hlive
      have hck : containsKey w.living_cells kk = true := by
        rw [containsKey_iff_mem_keys, hkey]
        refine List.mem_map.mpr ⟨e2, he2, ?_⟩
        rw [(hwfe e2 he2).1, hpe2]
      rw [hck] at hdead
      exact absurd hdead (by simp)
  · intro hcond
    left
    obtain ⟨e, he, hpe⟩ := List.mem_map.mp hlive
    refine List.mem_map.mpr ⟨e, List.mem_filter.mpr ⟨he, ?_⟩, hpe⟩
    rw [show e.2 = p from hpe, survives]
    simpa using hcond

theorem step_mem_dead {w : DullWorld} (hwf : Wf w) {p : CellPosition}
    (hdead : p ∉ get_living_cells w) :
    p ∈ get_living_cells (step w) ↔
      ∃ k, (k, (3, p)) ∈ (firstPass w w.living_cells).1 := by
  rw [get_living_cells, step_decomp hwf, List.map_append, List.map_map,
    List.mem_append]
  constructor
  · rintro (hmem | hmem)
    · exfalso
      obtain ⟨e, he, hpe⟩ := List.mem_map.mp hmem
      have hef := List.mem_filter.mp he
      exact hdead (List.mem_map.mpr ⟨e, hef.1, hpe⟩)
    · obtain ⟨e, he, hpe⟩ := List.mem_map.mp hmem
      obtain ⟨kk, n, q⟩ := e
      have hef := List.mem_filter.mp he
      have hn3 : n = 3 := by simpa using hef.2
      have hqp : q = p := hpe
      subst hqp hn3
      exact ⟨kk, hef.1⟩
  · rintro ⟨k, hk⟩
    right
    exact List.mem_map.mpr ⟨(k, (3, p)), List.mem_filter.mpr ⟨hk, by simp⟩, rfl⟩

/-! ### Preservation of well-formedness by `step` -/

theorem Wf_step {w : DullWorld} (hwf : Wf w) : Wf (step w) := by
  have hwfe := hwf.2.2.1
  have hlb : ∀ e ∈ w.living_cells, e.2.1 < w.rows ∧ e.2.2 < w.cols :=
    fun e he => ⟨(hwfe e he).2.1, (hwfe e he).2.2⟩
  have hD : DInv w (firstPass w w.living_cells).1 := DInv_firstPass hlb
  have hdecomp := step_decomp hwf
  refine ⟨hwf.1, hwf.2.1, ?_, ?_⟩
  · intro e he
    rw [hdecomp, List.mem_append] at he
    rcases he with he | he
    · exact hwfe e (List.mem_of_mem_filter he)
    · obtain ⟨e0, he0, hee⟩ := List.mem_map.mp he
      obtain ⟨hkey, hq1, hq2, _⟩ := hD.1 _ (List.mem_of_mem_filter he0)
      subst hee
      exact ⟨hkey, hq1, hq2⟩
  · rw [hdecomp, List.map_append, List.map_map]
    have hnd1 : ((w.living_cells.filter (fun e => survives w e.2)).map Prod.fst).Nodup :=
      ((List.filter_sublist _).map Prod.fst).nodup hwf.2.2.2
    have heq : (((firstPass w w.living_cells).1).filter
          (fun e => e.2.1 == 3)).map (Prod.fst ∘ fun e => (e.1, e.2.2))
        = (((firstPass w w.living_cells).1).filter
          (fun e => e.2.1 == 3)).map Prod.fst := rfl
    rw [heq]
    have hnd2 : ((((firstPass w w.living_cells).1).filter
        (fun e => e.2.1 == 3)).map Prod.fst).Nodup :=
      ((List.filter_sublist _).map Prod.fst).nodup hD.2
    refine List.Nodup.append hnd1 hnd2 ?_
    intro k hk1 hk2
    obtain ⟨e, he, hke⟩ := List.mem_map.mp hk2
    have hdead := (hD.1 e (List.mem_of_mem_filter he)).2.2.2
    obtain ⟨e2, he2, hke2⟩ := List.mem_map.mp hk1
    have hck : containsKey w.living_cells k = true := by
      rw [containsKey_iff_mem_keys]
      exact List.mem_map.mpr ⟨e2, List.mem_of_mem_filter he2, hke2⟩
    rw [hke, hck] at hdead
    exact absurd hdead (by simp)

theorem step_rows (w : DullWorld) : (step w).rows = w.rows := rfl

theorem step_cols (w : DullWorld) : (step w).cols = w.cols := rfl

theorem Wf_iterate {w : DullWorld} (hwf : Wf w) (n : Nat) :
    Wf (step^[n] w) ∧ (step^[n] w).rows = w.rows ∧ (step^[n] w).cols = w.cols := by
  induction n with
  | zero => exact ⟨hwf, rfl, rfl⟩
  | succ n ih =>
      rw [Function.iterate_succ_apply']
      exact ⟨Wf_step ih.1, by rw [step_rows, ih.2.1], by rw [step_cols, ih.2.2]⟩

/-! ### Reading single cells of the concrete grids -/

theorem getD_oneAt {n i j : Nat} (h : i < n) :
    (oneAt n i).getD j 0 = if j = i then 1 else 0 := by
  rw [oneAt, List.getD_eq_getElem?_getD]
  rcases Nat.lt_trichotomy j i with hj | hj | hj
  · rw [List.getElem?_append_left (by simpa using hj), List.getElem?_replicate,
      if_pos hj, if_neg (by omega)]
    rfl
  · subst hj
    rw [List.getElem?_append_right (by simp), if_pos rfl]
    simp
  · rw [List.getElem?_append_right (by simp; omega), if_neg (by omega)]
    have hsub : j - (List.replicate i (0 : Nat)).length = (j - i - 1) + 1 := by
      simp
      omega
    rw [hsub, List.getElem?_cons_succ, List.getElem?_replicate]
    by_cases hlt : j - i - 1 < n - i - 1
    · rw [if_pos hlt]
      rfl
    · rw [if_neg hlt]
      rfl

theorem gridA_row0 : gridA.getD 0 [] = oneAt 22284 22283 := rfl

theorem gridB_row0 : gridB.getD 0 [] = oneAt 22284 22282 := rfl

theorem gridB_row1 : gridB.getD 1 [] = oneAt 22284 22283 := rfl

theorem gridB_last : gridB.getD 19709 [] = oneAt 22284 0 := by
  have he : gridB = (oneAt 22284 22282 :: oneAt 22284 22283 ::
      List.replicate 19707 (zrow 22284)) ++ [oneAt 22284 0] := by
    rw [List.cons_append, List.cons_append]
    rfl
  rw [he, List.getD_eq_getElem?_getD,
    List.getElem?_append_right
      (by simp only [List.length_cons, List.length_replicate]; omega)]
  have hidx : 19709 - ((oneAt 22284 22282 :: oneAt 22284 22283 ::
      List.replicate 19707 (zrow 22284)).length) = 0 := by
    simp only [List.length_cons, List.length_replicate]
  rw [hidx]
  rfl

theorem row_len_eq_cols {g : Grid} {w : DullWorld} (h : from_config g = Except.ok w)
    {i : Nat} (hi : i < g.length) : (g.getD i []).length = w.cols := by
  obtain ⟨hr, hc, hm, h2, hcl, hall⟩ := from_config_ok_inv h
  have hrow := getD_mem_of_lt hi
  have hvr := List.all_eq_true.mp hall _ hrow
  rw [validRow, Bool.and_eq_true, beq_iff_eq] at hvr
  rw [hvr.1, hc]

theorem live_iff_one2 {g : Grid} {w : DullWorld} (h : from_config g = Except.ok w)
    (hg : g.length ≤ 19709) {q : CellPosition} (hq1 : q.1 < w.rows)
    (hq2 : q.2 < w.cols) :
    q ∈ get_living_cells w ↔ gridAt g q.1 q.2 = 1 := by
  rw [live_iff_one h hg q]
  obtain ⟨hr, _, _, _, _, _⟩ := from_config_ok_inv h
  constructor
  · rintro ⟨_, _, h3⟩
    exact h3
  · intro h3
    have h1 : q.1 < g.length := by
      rw [← hr]
      exact hq1
    refine ⟨h1, ?_, h3⟩
    rw [row_len_eq_cols h h1]
    exact hq2

theorem dense_cnt_eq_lnc {g : Grid} {w : DullWorld} (h : from_config g = Except.ok w)
    (hg : g.length ≤ 19709) {r c : Nat} (hr : r < w.rows) (hc : c < w.cols) :
    (neighborPositions w.rows w.cols r c).countP (fun p => gridAt g p.1 p.2 == 1)
      = liveNeighborCount w r c := by
  rw [liveNeighborCount]
  refine List.countP_congr ?_
  intro q hq
  have hqr := nbr_in_range hr hc q hq
  constructor
  · intro hx
    have hx1 : gridAt g q.1 q.2 = 1 := by simpa using hx
    exact List.elem_iff.mpr ((live_iff_one2 h hg hqr.1 hqr.2).mpr hx1)
  · intro hx
    have hx1 : q ∈ get_living_cells w := List.elem_iff.mp hx
    simpa using (live_iff_one2 h hg hqr.1 hqr.2).mp hx1

theorem denseNextAlive_eq {g : Grid} {w : DullWorld} (h : from_config g = Except.ok w)
    (hg : g.length ≤ 19709) {r c : Nat} (hr : r < w.rows) (hc : c < w.cols) :
    denseNextAlive g w.rows w.cols r c
      = (if (r, c) ∈ get_living_cells w
         then (liveNeighborCount w r c == 2 || liveNeighborCount w r c == 3)
         else (liveNeighborCount w r c == 3)) := by
  have hbr := live_iff_one2 h hg (q := (r, c)) hr hc
  by_cases hx : gridAt g r c = 1
  · rw [denseNextAlive, if_pos (by simpa using hx), if_pos (hbr.mpr hx),
      dense_cnt_eq_lnc h hg hr hc]
  · have hnl : (r, c) ∉ get_living_cells w := fun hl => hx (hbr.mp hl)
    rw [denseNextAlive, if_neg (by simpa using hx), if_neg hnl,
      dense_cnt_eq_lnc h hg hr hc]

/-! ## Claim theorems -/

/-- Claim C7: for every input grid, construction applies three checks in
order, short-circuiting on the first failure: `MIN_ROWS_ERROR` (the
`TooFewRows` error) iff the row count is below 2, else `MIN_COLS_ERROR`
(the `TooFewColumns` error) iff the first row has fewer than 2 cells, else
`COLS_LEN_CONSISTENCY_ERROR` (the `InconsistentOrInvalidGrid` error) iff
some row's length differs from the first row's or some cell is neither 0
nor 1; otherwise a world is returned. -/
theorem C7_validation_order (g : Grid) :
    from_config g =
      (if g.length < 2 then Except.error MIN_ROWS_ERROR
       else if (g.headD []).length < 2 then Except.error MIN_COLS_ERROR
       else if ∀ row ∈ g, row.length = (g.headD []).length ∧ ∀ v ∈ row, v = 0 ∨ v = 1
       then Except.ok ⟨g.length, (g.headD []).length, build_map_from_grid g⟩
       else Except.error COLS_LEN_CONSISTENCY_ERROR) := by
  unfold from_config
  by_cases h1 : g.length < 2
  · rw [if_pos h1, if_pos h1]
  · rw [if_neg h1, if_neg h1]
    by_cases h2 : (g.headD []).length < 2
    · rw [if_pos h2, if_pos h2]
    · rw [if_neg h2, if_neg h2]
      have hiff : (g.all (validRow (g.headD []).length) = true)
          ↔ (∀ row ∈ g, row.length = (g.headD []).length ∧
            ∀ v ∈ row, v = 0 ∨ v = 1) := by
        rw [List.all_eq_true]
        constructor
        · intro hx row hrow
          have hv := hx row hrow
          rw [validRow, Bool.and_eq_true, beq_iff_eq, List.all_eq_true] at hv
          exact ⟨hv.1, fun v hvv => by simpa using hv.2 v hvv⟩
        · intro hx row hrow
          rw [validRow, Bool.and_eq_true, beq_iff_eq, List.all_eq_true]
          exact ⟨(hx row hrow).1, fun v hvv => by simpa using (hx row hrow).2 v hvv⟩
      by_cases h3 : g.all (validRow (g.headD []).length) = true
      · rw [if_pos h3, if_pos (hiff.mp h3)]
      · rw [if_neg h3, if_neg (fun hh => h3 (hiff.mpr hh))]

/-- Claim C10: `from_config` is total over every input grid, including the
empty grid and grids with an empty first row (the `grid[0]` access is guarded
by the row-count check): the result is always a world or one of the three
errors. -/
theorem C10_total_construction :
    (∀ g : Grid, from_config g = Except.error MIN_ROWS_ERROR ∨
      from_config g = Except.error MIN_COLS_ERROR ∨
      from_config g = Except.error COLS_LEN_CONSISTENCY_ERROR ∨
      ∃ w, from_config g = Except.ok w) ∧
    from_config [] = Except.error MIN_ROWS_ERROR ∧
    from_config [[]] = Except.error MIN_ROWS_ERROR ∧
    from_config [[], []] = Except.error MIN_COLS_ERROR := by
  refine ⟨?_, rfl, rfl, rfl⟩
  intro g
  unfold from_config
  by_cases h1 : g.length < 2
  · rw [if_pos h1]
    exact Or.inl rfl
  · rw [if_neg h1]
    by_cases h2 : (g.headD []).length < 2
    · rw [if_pos h2]
      exact Or.inr (Or.inl rfl)
    · rw [if_neg h2]
      by_cases h3 : g.all (validRow (g.headD []).length) = true
      · rw [if_pos h3]
        exact Or.inr (Or.inr (Or.inr ⟨_, rfl⟩))
      · rw [if_neg h3]
        exact Or.inr (Or.inr (Or.inl rfl))

/-- Claim C9: every world reachable through `from_config` followed by any
number of `step` calls satisfies the invariant that each live-map entry
`(key, (row, col))` has `row < rows`, `col < cols` and
`key = row * 22283 + col * 19709`. -/
theorem C9_key_invariant (g : Grid) (w : DullWorld)
    (h : from_config g = Except.ok w) (n : Nat) :
    ∀ e ∈ (step^[n] w).living_cells,
      e.1 = e.2.1 * 22283 + e.2.2 * 19709 ∧
      e.2.1 < (step^[n] w).rows ∧ e.2.2 < (step^[n] w).cols := by
  have hwf := (Wf_iterate (from_config_wf h) n).1
  intro e he
  have hx := hwf.2.2.1 e he
  exact ⟨hx.1, hx.2.1, hx.2.2⟩

/-- Witness for C9 on the 3 × 5 blinker world after one step, at the entry
of the surviving center cell. -/
theorem C9_witness :
    (build_living_cell_key 1 2, ((1 : Nat), (2 : Nat))).1
        = (build_living_cell_key 1 2, ((1 : Nat), (2 : Nat))).2.1 * 22283 +
          (build_living_cell_key 1 2, ((1 : Nat), (2 : Nat))).2.2 * 19709 ∧
    (build_living_cell_key 1 2, ((1 : Nat), (2 : Nat))).2.1
        < (step^[1] worldBlinker).rows ∧
    (build_living_cell_key 1 2, ((1 : Nat), (2 : Nat))).2.2
        < (step^[1] worldBlinker).cols :=
  C9_key_invariant gridBlinker worldBlinker rfl 1
    (build_living_cell_key 1 2, (1, 2)) (by decide)

/-- Claim C4: after one `step` on a validly constructed world, a previously
live cell is present iff the tally computed for it by `process_neighbors`
(§4.3 of the spec) was exactly 2 or 3, and a previously dead cell is present
iff the accumulator holds an entry for it with tally exactly 3; rows and
columns are unchanged (the live map is replaced wholesale). -/
theorem C4_step_rule (g : Grid) (w : DullWorld)
    (h : from_config g = Except.ok w) :
    ((step w).rows = w.rows ∧ (step w).cols = w.cols) ∧
    ∀ p : CellPosition,
      (p ∈ get_living_cells w →
        (p ∈ get_living_cells (step w) ↔
          ((process_neighbors w p.1 p.2 []).1 = 2 ∨
           (process_neighbors w p.1 p.2 []).1 = 3))) ∧
      (p ∉ get_living_cells w →
        (p ∈ get_living_cells (step w) ↔
          ∃ k, (k, (3, p)) ∈ (firstPass w w.living_cells).1)) := by
  have hwf := from_config_wf h
  exact ⟨⟨rfl, rfl⟩,
    fun p => ⟨fun hl => step_mem_live hwf hl, fun hd => step_mem_dead hwf hd⟩⟩

/-- Witness for C4 on the 3 × 5 blinker world. -/
theorem C4_witness :
    (((step worldBlinker).rows = worldBlinker.rows ∧
      (step worldBlinker).cols = worldBlinker.cols) ∧
    ∀ p : CellPosition,
      (p ∈ get_living_cells worldBlinker →
        (p ∈ get_living_cells (step worldBlinker) ↔
          ((process_neighbors worldBlinker p.1 p.2 []).1 = 2 ∨
           (process_neighbors worldBlinker p.1 p.2 []).1 = 3))) ∧
      (p ∉ get_living_cells worldBlinker →
        (p ∈ get_living_cells (step worldBlinker) ↔
          ∃ k, (k, (3, p)) ∈ (firstPass worldBlinker worldBlinker.living_cells).1))) :=
  C4_step_rule gridBlinker worldBlinker rfl

/-- Claim C6 is refuted: on the 3 × 5 blinker grid, not exactly one but two
distinct dead cells directly above and below the center, `(0, 2)` and
`(2, 2)`, attain exactly 3 live neighbors and are both born. -/
theorem C6_counterexample :
    from_config gridBlinker = Except.ok worldBlinker ∧
    (0, 2) ∉ get_living_cells worldBlinker ∧
    (2, 2) ∉ get_living_cells worldBlinker ∧
    liveNeighborCount worldBlinker 0 2 = 3 ∧
    liveNeighborCount worldBlinker 2 2 = 3 ∧
    (0, 2) ∈ get_living_cells (step worldBlinker) ∧
    (2, 2) ∈ get_living_cells (step worldBlinker) ∧
    ((0, 2) : CellPosition) ≠ (2, 2) :=
  ⟨rfl, by decide, by decide, by decide, by decide, by decide, by decide, by decide⟩

/-- Claim C6 (amended): on the 3 × 5 toroidal grid with the horizontal line
`(1,1), (1,2), (1,3)` live, one `step` keeps the center `(1,2)` (2 live
neighbors), drops both end cells (1 live neighbor each), and the two dead
cells directly above and below the center, `(0,2)` and `(2,2)`, each attain
exactly 3 live neighbors and are born: the next live set is exactly
`{(0,2), (1,2), (2,2)}`. -/
theorem C6_blinker :
    from_config gridBlinker = Except.ok worldBlinker ∧
    (process_neighbors worldBlinker 1 2 []).1 = 2 ∧
    (process_neighbors worldBlinker 1 1 []).1 = 1 ∧
    (process_neighbors worldBlinker 1 3 []).1 = 1 ∧
    liveNeighborCount worldBlinker 0 2 = 3 ∧
    liveNeighborCount worldBlinker 2 2 = 3 ∧
    (∀ p : CellPosition, p ∈ get_living_cells (step worldBlinker) ↔
      (p = (0, 2) ∨ p = (1, 2) ∨ p = (2, 2))) := by
  refine ⟨rfl, by decide, by decide, by decide, by decide, by decide, ?_⟩
  intro p
  have hlist : get_living_cells (step worldBlinker) = [(1, 2), (0, 2), (2, 2)] := by
    decide
  rw [hlist]
  simp only [List.mem_cons, List.not_mem_nil, or_false]
  tauto

/-- Claim C1 (amended): for every grid accepted by validated construction
with at most 19709 rows (so that the key map is injective on in-range
coordinates), one `step` of the sparse engine yields exactly the live-cell
set of one generation of the dense full-grid scan with the standard rules
over the toroidal grid. -/
theorem C1_sparse_dense_equiv (g : Grid) (w : DullWorld)
    (h : from_config g = Except.ok w) (hrows : g.length ≤ 19709) (r c : Nat) :
    (r, c) ∈ get_living_cells (step w) ↔
      (r < w.rows ∧ c < w.cols ∧ denseNextAlive g w.rows w.cols r c = true) := by
  have hwf := from_config_wf h
  have hinj : w.rows ≤ 19709 := by
    rw [(from_config_ok_inv h).1]
    exact hrows
  rw [step, stepOn_mem hwf hinj (List.Perm.refl _) (r, c)]
  constructor
  · rintro (⟨hlive, hcond⟩ | ⟨hp1, hp2, hdead, h3⟩)
    · obtain ⟨e, he, hpe⟩ := List.mem_map.mp hlive
      have hewf := hwf.2.2.1 e he
      have hp1 : r < w.rows := by
        have h0 := hewf.2.1
        rw [hpe] at h0
        exact h0
      have hp2 : c < w.cols := by
        have h0 := hewf.2.2
        rw [hpe] at h0
        exact h0
      refine ⟨hp1, hp2, ?_⟩
      rw [denseNextAlive_eq h hrows hp1 hp2, if_pos hlive]
      simpa using hcond
    · refine ⟨hp1, hp2, ?_⟩
      rw [denseNextAlive_eq h hrows hp1 hp2, if_neg hdead]
      simpa using h3
  · rintro ⟨hp1, hp2, hdense⟩
    rw [denseNextAlive_eq h hrows hp1 hp2] at hdense
    by_cases hlive : (r, c) ∈ get_living_cells w
    · rw [if_pos hlive] at hdense
      exact Or.inl ⟨hlive, by simpa using hdense⟩
    · rw [if_neg hlive] at hdense
      exact Or.inr ⟨hp1, hp2, hlive, by simpa using hdense⟩

/-- Witness for C1 on the 3 × 5 blinker grid at cell `(0, 2)`. -/
theorem C1_witness :
    (0, 2) ∈ get_living_cells (step worldBlinker) ↔
      (0 < worldBlinker.rows ∧ 2 < worldBlinker.cols ∧
        denseNextAlive gridBlinker worldBlinker.rows worldBlinker.cols 0 2 = true) :=
  C1_sparse_dense_equiv gridBlinker worldBlinker rfl (by decide) 0 2

/-- Claim C1 is refuted as stated: `gridB` (19710 × 22284, live cells
`(0,22282)`, `(1,22283)`, `(19709,0)`) is accepted by validated construction,
the dense scan births the dead cell `(0, 22283)` (it has exactly 3 live
neighbors), but the sparse engine does not: the key of `(0, 22283)` collides
with the key of the live cell `(19709, 0)`, so the sparse engine treats that
dead cell as alive. -/
theorem C1_counterexample :
    from_config gridB = Except.ok worldB ∧
    (0 : Nat) < worldB.rows ∧ (22283 : Nat) < worldB.cols ∧
    denseNextAlive gridB worldB.rows worldB.cols 0 22283 = true ∧
    (0, 22283) ∉ get_living_cells (step worldB) := by
  refine ⟨from_config_gridB, by decide, by decide, ?_, by decide⟩
  have hnb : neighborPositions worldB.rows worldB.cols 0 22283
      = [(19709, 22282), (19709, 22283), (19709, 0), (0, 22282), (0, 0),
         (1, 22282), (1, 22283), (1, 0)] := by decide
  have hc1 : gridAt gridB 0 22283 = 0 := by
    unfold gridAt
    rw [gridB_row0, getD_oneAt (show (22282 : Nat) < 22284 by omega)]
    decide
  have g1 : gridAt gridB 19709 22282 = 0 := by
    unfold gridAt
    rw [gridB_last, getD_oneAt (show (0 : Nat) < 22284 by omega)]
    decide
  have g2 : gridAt gridB 19709 22283 = 0 := by
    unfold gridAt
    rw [gridB_last, getD_oneAt (show (0 : Nat) < 22284 by omega)]
    decide
  have g3 : gridAt gridB 19709 0 = 1 := by
    unfold gridAt
    rw [gridB_last, getD_oneAt (show (0 : Nat) < 22284 by omega)]
    decide
  have g4 : gridAt gridB 0 22282 = 1 := by
    unfold gridAt
    rw [gridB_row0, getD_oneAt (show (22282 : Nat) < 22284 by omega)]
    decide
  have g5 : gridAt gridB 0 0 = 0 := by
    unfold gridAt
    rw [gridB_row0, getD_oneAt (show (22282 : Nat) < 22284 by omega)]
    decide
  have g6 : gridAt gridB 1 22282 = 0 := by
    unfold gridAt
    rw [gridB_row1, getD_oneAt (show (22283 : Nat) < 22284 by omega)]
    decide
  have g7 : gridAt gridB 1 22283 = 1 := by
    unfold gridAt
    rw [gridB_row1, getD_oneAt (show (22283 : Nat) < 22284 by omega)]
    decide
  have g8 : gridAt gridB 1 0 = 0 := by
    unfold gridAt
    rw [gridB_row1, getD_oneAt (show (22283 : Nat) < 22284 by omega)]
    decide
  rw [denseNextAlive, hnb]
  simp [hc1, g1, g2, g3, g4, g5, g6, g7, g8]

/-- Claim C2 (amended): on a validly constructed world with at most 19709
rows, `process_neighbors` returns, for any in-range cell and any initial
accumulator, exactly the number of live cells among the eight toroidal
neighbor pairs of the cell. -/
theorem C2_neighbor_count (g : Grid) (w : DullWorld)
    (h : from_config g = Except.ok w) (hrows : g.length ≤ 19709)
    (r c : Nat) (hr : r < w.rows) (hc : c < w.cols) (d : DeadCellMap) :
    (process_neighbors w r c d).1 = liveNeighborCount w r c := by
  have hinj : w.rows ≤ 19709 := by
    rw [(from_config_ok_inv h).1]
    exact hrows
  exact process_neighbors_count (from_config_wf h) hinj hr hc d

/-- Witness for C2 on the 3 × 5 blinker world at the center cell. -/
theorem C2_witness :
    (process_neighbors worldBlinker 1 2 []).1 = liveNeighborCount worldBlinker 1 2 :=
  C2_neighbor_count gridBlinker worldBlinker rfl (by decide) 1 2 (by decide)
    (by decide) []

/-- Claim C2 is refuted as stated: in the validly constructed world of
`gridA` (single live cell `(19709, 0)`), `process_neighbors` at the in-range
cell `(1, 22283)` returns 1, although none of that cell's eight toroidal
neighbors is alive: the neighbor `(0, 22283)` is dead but its key collides
with the key of the live cell `(19709, 0)`. -/
theorem C2_counterexample :
    from_config gridA = Except.ok worldA ∧
    (1 : Nat) < worldA.rows ∧ (22283 : Nat) < worldA.cols ∧
    (process_neighbors worldA 1 22283 []).1 = 1 ∧
    liveNeighborCount worldA 1 22283 = 0 :=
  ⟨from_config_gridA, by decide, by decide, by decide, by decide⟩

/-- Claim C5 (amended): for every input grid with at most 19709 rows,
immediately after successful construction the set returned by
`get_living_cells` is exactly the set of positions holding 1 in the input
grid. -/
theorem C5_roundtrip (g : Grid) (w : DullWorld)
    (h : from_config g = Except.ok w) (hrows : g.length ≤ 19709)
    (p : CellPosition) :
    p ∈ get_living_cells w ↔
      (p.1 < g.length ∧ p.2 < (g.getD p.1 []).length ∧ gridAt g p.1 p.2 = 1) :=
  live_iff_one h hrows p

/-- Witness for C5 on the 3 × 5 blinker grid at position `(1, 2)`. -/
theorem C5_witness :
    (1, 2) ∈ get_living_cells worldBlinker ↔
      ((1 : Nat) < gridBlinker.length ∧
        (2 : Nat) < (gridBlinker.getD 1 []).length ∧ gridAt gridBlinker 1 2 = 1) :=
  C5_roundtrip gridBlinker worldBlinker rfl (by decide) (1, 2)

/-- Claim C5 is refuted as stated: in `gridA` the cell `(0, 22283)` holds 1,
construction succeeds, yet `(0, 22283)` is missing from the constructed live
set: its key collides with the key of `(19709, 0)`, whose later insertion
overwrites the entry. -/
theorem C5_counterexample :
    from_config gridA = Except.ok worldA ∧
    (0 : Nat) < gridA.length ∧ (22283 : Nat) < (gridA.getD 0 []).length ∧
    gridAt gridA 0 22283 = 1 ∧
    (0, 22283) ∉ get_living_cells worldA := by
  refine ⟨from_config_gridA, ?_, ?_, ?_, by decide⟩
  · rw [gridA_length]
    omega
  · rw [gridA_row0, oneAt_length (by omega)]
    omega
  · unfold gridAt
    rw [gridA_row0, getD_oneAt (show (22283 : Nat) < 22284 by omega)]
    decide

/-- Claim C3 (amended): on a validly constructed world with at most 19709
rows, after `process_neighbors` has been applied once to each live cell with
the shared accumulator, the accumulator holds an entry for an in-range cell
iff that cell is dead and has at least one live toroidal neighbor, and any
such entry's tally is exactly the cell's number of live toroidal neighbors. -/
theorem C3_accumulator (g : Grid) (w : DullWorld)
    (h : from_config g = Except.ok w) (hrows : g.length ≤ 19709)
    (p : CellPosition) (hp1 : p.1 < w.rows) (hp2 : p.2 < w.cols) :
    ((∃ n, (build_living_cell_key p.1 p.2, (n, p)) ∈ (firstPass w w.living_cells).1)
      ↔ (p ∉ get_living_cells w ∧
         ∃ q ∈ neighborPositions w.rows w.cols p.1 p.2, q ∈ get_living_cells w)) ∧
    (∀ n, (build_living_cell_key p.1 p.2, (n, p)) ∈ (firstPass w w.living_cells).1 →
      n = liveNeighborCount w p.1 p.2) := by
  have hwf := from_config_wf h
  have hinj : w.rows ≤ 19709 := by
    rw [(from_config_ok_inv h).1]
    exact hrows
  have hlb : ∀ e ∈ w.living_cells, e.2.1 < w.rows ∧ e.2.2 < w.cols :=
    fun e he => ⟨(hwf.2.2.1 e he).2.1, (hwf.2.2.1 e he).2.2⟩
  have hchar := fun n => firstPass_dead_mem hinj hlb
    (build_living_cell_key p.1 p.2) n p
  have htotal := totalInc_eq_lnc hwf (List.Perm.refl w.living_cells) hp1 hp2
  constructor
  · constructor
    · rintro ⟨n, hn⟩
      obtain ⟨_, _, _, hdead, hni, hn0⟩ := (hchar n).mp hn
      constructor
      · intro hl
        rw [(containsKey_key_iff hwf hinj hp1).mpr hl] at hdead
        exact absurd hdead (by simp)
      · have hlnc : liveNeighborCount w p.1 p.2 ≠ 0 := by
          rw [← htotal]
          omega
        rw [liveNeighborCount] at hlnc
        by_contra hno
        push_neg at hno
        apply hlnc
        rw [List.countP_eq_zero]
        intro q hq
        intro hcq
        exact hno q hq (List.elem_iff.mp hcq)
    · rintro ⟨hdeadP, q, hq, hqlive⟩
      have hcontains : containsKey w.living_cells
          (build_living_cell_key p.1 p.2) = false := by
        by_cases hcc : containsKey w.living_cells
            (build_living_cell_key p.1 p.2) = true
        · exact absurd ((containsKey_key_iff hwf hinj hp1).mp hcc) hdeadP
        · exact Bool.eq_false_iff.mpr hcc
      have hlnc : liveNeighborCount w p.1 p.2 ≠ 0 := by
        rw [liveNeighborCount]
        intro h0
        rw [List.countP_eq_zero] at h0
        exact h0 q hq (List.elem_iff.mpr hqlive)
      exact ⟨liveNeighborCount w p.1 p.2,
        (hchar _).mpr ⟨rfl, hp1, hp2, hcontains, htotal.symm, hlnc⟩⟩
  · intro n hn
    obtain ⟨_, _, _, _, hni, _⟩ := (hchar n).mp hn
    rw [hni, htotal]

/-- Witness for C3 on the 3 × 5 blinker world at the dead cell `(0, 2)`. -/
theorem C3_witness :
    (((∃ n, (build_living_cell_key 0 2, (n, ((0 : Nat), (2 : Nat)))) ∈
        (firstPass worldBlinker worldBlinker.living_cells).1)
      ↔ (((0 : Nat), (2 : Nat)) ∉ get_living_cells worldBlinker ∧
         ∃ q ∈ neighborPositions worldBlinker.rows worldBlinker.cols 0 2,
           q ∈ get_living_cells worldBlinker)) ∧
    (∀ n, (build_living_cell_key 0 2, (n, ((0 : Nat), (2 : Nat)))) ∈
        (firstPass worldBlinker worldBlinker.living_cells).1 →
      n = liveNeighborCount worldBlinker 0 2)) :=
  C3_accumulator gridBlinker worldBlinker rfl (by decide) (0, 2) (by decide)
    (by decide)

/-- Claim C3 is refuted as stated: in the validly constructed world of
`gridA`, the cell `(0, 22283)` is dead and adjacent to the live cell
`(19709, 0)`, yet after all live cells are processed the accumulator holds no
entry for it — neither under its key (which collides with the live cell's
key, so the lookup sees a live cell) nor storing its position. -/
theorem C3_counterexample :
    from_config gridA = Except.ok worldA ∧
    (0 : Nat) < worldA.rows ∧ (22283 : Nat) < worldA.cols ∧
    (0, 22283) ∉ get_living_cells worldA ∧
    (19709, 0) ∈ neighborPositions worldA.rows worldA.cols 0 22283 ∧
    (19709, 0) ∈ get_living_cells worldA ∧
    (∀ e ∈ (firstPass worldA worldA.living_cells).1,
      e.1 ≠ build_living_cell_key 0 22283 ∧ e.2.2 ≠ (0, 22283)) :=
  ⟨from_config_gridA, by decide, by decide, by decide, by decide, by decide,
    by decide⟩

/-- Claim C8 (amended): on a validly constructed world with at most 19709
rows, the live-cell set produced by one generation does not depend on the
order in which the live cells are enumerated during the survivor pass. -/
theorem C8_order_independent (g : Grid) (w : DullWorld)
    (h : from_config g = Except.ok w) (hrows : g.length ≤ 19709)
    (l1 l2 : List (Nat × CellPosition)) (h1 : l1.Perm w.living_cells)
    (h2 : l2.Perm w.living_cells) (p : CellPosition) :
    p ∈ get_living_cells (stepOn w l1) ↔ p ∈ get_living_cells (stepOn w l2) := by
  have hwf := from_config_wf h
  have hinj : w.rows ≤ 19709 := by
    rw [(from_config_ok_inv h).1]
    exact hrows
  rw [stepOn_mem hwf hinj h1 p, stepOn_mem hwf hinj h2 p]

/-- Witness for C8 on the 3 × 5 blinker world with the canonical and the
reversed enumeration. -/
theorem C8_witness :
    (0, 2) ∈ get_living_cells (stepOn worldBlinker worldBlinker.living_cells) ↔
      (0, 2) ∈ get_living_cells
        (stepOn worldBlinker worldBlinker.living_cells.reverse) :=
  C8_order_independent gridBlinker worldBlinker rfl (by decide) _ _
    (List.Perm.refl _) (List.reverse_perm _) (0, 2)

/-- Claim C8 is refuted as stated: in the validly constructed world of
`gridC`, the two dead cells `(0, 22283)` and `(19709, 0)` share one key and
jointly accumulate a tally of 3; the stored position is the last writer's,
so enumerating the live cells in the canonical order births `(19709, 0)`
while the rotated order `listC2` births `(0, 22283)` instead — two different
live-cell sets from the same captured generation. -/
theorem C8_counterexample :
    from_config gridC = Except.ok worldC ∧
    listC2.Perm worldC.living_cells ∧
    (19709, 0) ∈ get_living_cells (stepOn worldC worldC.living_cells) ∧
    (19709, 0) ∉ get_living_cells (stepOn worldC listC2) := by
  refine ⟨from_config_gridC, ?_, by decide, by decide⟩
  have he : listC2 = [(build_living_cell_key 19708 0, ((19708 : Nat), (0 : Nat)))] ++
      [(build_living_cell_key 0 22282, (0, 22282)),
       (build_living_cell_key 1 22282, (1, 22282))] := rfl
  rw [he]
  exact List.perm_append_comm

end Dull
